import Mathlib

/-!
Verification development for the Automotive-Wiring-Diagnostics preprocessing
pipeline (`scripts/data-preprocessing.py`) and the fault-pattern knowledge base
(`scripts/fault-patterns.py`).

Python strings are modelled as lists of Unicode code points (`PStr`), pandas
cells as `Option Value` (`none` models a missing value / NaN), rational numbers
stand in for Python floats, and fallible operations return `Except PError`.
-/

namespace AutoDiag

set_option maxHeartbeats 1000000

/-- Python strings as lists of Unicode code points. -/
abbrev PStr := List Nat

/-- Code points of a Lean string literal (boundary conversion helper). -/
def pstr (s : String) : PStr := s.data.map Char.toNat

/-- Python `str.lower()` on a code point (ASCII range; all repository data is ASCII). -/
def asciiLower (n : Nat) : Nat := if 65 ≤ n ∧ n ≤ 90 then n + 32 else n

/-- Python `str.upper()` on a code point (ASCII range). -/
def asciiUpper (n : Nat) : Nat := if 97 ≤ n ∧ n ≤ 122 then n - 32 else n

/-- Regex `\w` (word character): letter, digit or underscore (ASCII range). -/
def isWordChar (n : Nat) : Bool :=
  decide ((48 ≤ n ∧ n ≤ 57) ∨ (65 ≤ n ∧ n ≤ 90) ∨ (97 ≤ n ∧ n ≤ 122) ∨ n = 95)

/-- Regex `\s` / Python `str.split()` whitespace: space, tab, LF, VT, FF, CR. -/
def isSpaceChar (n : Nat) : Bool :=
  decide (n = 32 ∨ n = 9 ∨ n = 10 ∨ n = 11 ∨ n = 12 ∨ n = 13)

def pyLower (s : PStr) : PStr := s.map asciiLower

def pyUpper (s : PStr) : PStr := s.map asciiUpper

/-- One character step of `re.sub(r'[^\w\s]', ' ', text)`: a character that is
neither a word character nor whitespace is replaced by a space (32). -/
def subChar (n : Nat) : Nat := if isWordChar n || isSpaceChar n then n else 32

/-- Helper for `pySplit`: `acc` holds the current word reversed. -/
def pySplitAux : PStr → PStr → List PStr
  | [], acc => if acc.isEmpty then [] else [acc.reverse]
  | c :: rest, acc =>
    if isSpaceChar c then
      if acc.isEmpty then pySplitAux rest [] else acc.reverse :: pySplitAux rest []
    else pySplitAux rest (c :: acc)

/-- Python `str.split()` with no argument: split on whitespace runs, dropping
empty pieces. -/
def pySplit (s : PStr) : List PStr := pySplitAux s []

/-- Python `' '.join(words)`. -/
def spaceJoin : List PStr → PStr
  | [] => []
  | [w] => w
  | w :: ws => w ++ 32 :: spaceJoin ws

/-- Remove trailing whitespace (helper for `pyStrip`). -/
def dropTrailSp (s : PStr) : PStr := ((s.reverse).dropWhile isSpaceChar).reverse

/-- Python `str.strip()`: remove leading and trailing whitespace. -/
def pyStrip (s : PStr) : PStr := dropTrailSp (s.dropWhile isSpaceChar)

/-- Does `s` start with `p`? (models `str.startswith`, used by `pyReplace`). -/
def startsWith : PStr → PStr → Bool
  | _, [] => true
  | [], _ :: _ => false
  | c :: s, p :: ps => c == p && startsWith s ps

/-- Is `pat` a contiguous substring of `t`? (models Python `in` / pandas
`str.contains` with a literal pattern). -/
def containsSub (pat : PStr) : PStr → Bool
  | [] => startsWith [] pat
  | c :: r => startsWith (c :: r) pat || containsSub pat r

/-- Helper for `pyReplace`, structurally recursive on a fuel that bounds the
remaining length (on a match at least one character is consumed, so one fuel
step suffices; with fuel `≥ |s|` the fuel never runs out). -/
def pyReplaceAux (pat rep : PStr) : Nat → PStr → PStr
  | _, [] => []
  | 0, s => s
  | f + 1, c :: rest =>
    if startsWith (c :: rest) pat then
      rep ++ pyReplaceAux pat rep f ((c :: rest).drop pat.length)
    else
      c :: pyReplaceAux pat rep f rest

/-- Python `str.replace(pat, rep)`: replace all non-overlapping occurrences of
`pat` left to right, never rescanning the replacement text. The repository only
calls this with non-empty patterns; for an empty pattern this model returns `s`
unchanged. -/
def pyReplace (pat rep s : PStr) : PStr :=
  match pat with
  | [] => s
  | _ :: _ => pyReplaceAux pat rep s.length s

/-! ### Cells and values

A pandas cell is `Option Value`: `none` models a missing value (NaN). A
`Value` is a string or a number (rationals stand in for Python floats). -/

inductive Value where
  | s (text : PStr)
  | n (num : ℚ)
deriving DecidableEq, Repr

abbrev Cell := Option Value

/-- Python `str(x)` as applied by `Series.astype(str)`: a missing value
renders as the string `"nan"` (this is what `astype(str)` does to NaN — the
`pd.isna` branch of `clean_text` is unreachable through `clean_data` because
`astype(str)` runs first). Numeric formatting differs in detail from Python
(`toString` of a rational); no claim depends on it. -/
def astypeStr (c : Cell) : PStr :=
  match c with
  | none => pstr "nan"
  | some (.s t) => t
  | some (.n q) => pstr (toString q)

/-! ### `clean_text` (data-preprocessing.py lines 76-90) -/

/-- Core of `clean_text` on an actual string: lowercase, replace non-word
non-space characters by a space, then collapse whitespace via
`' '.join(text.split())`. -/
def cleanTextStr (t : PStr) : PStr :=
  spaceJoin (pySplit ((pyLower t).map subChar))

/-- `clean_text(text)`: the `pd.isna` branch returns `""`; otherwise
`str(text).lower()` then the substitutions above. -/
def clean_text (x : Cell) : PStr :=
  match x with
  | none => []
  | some v => cleanTextStr (astypeStr (some v))

/-! ### `clean_dtc_codes` (data-preprocessing.py lines 92-102) -/

/-- Code point of `P`, `C`, `B` or `U`. -/
def isDtcLetter (n : Nat) : Bool := decide (n = 80 ∨ n = 67 ∨ n = 66 ∨ n = 85)

/-- Code point of a digit `0`-`3`. -/
def isDtcDigit (n : Nat) : Bool := decide (48 ≤ n ∧ n ≤ 51)

/-- Code point of a hexadecimal digit `0`-`9` or `A`-`F` (the regex class
`[0-9A-F]` of the source's `dtc_pattern`). -/
def isHexChar (n : Nat) : Bool := decide ((48 ≤ n ∧ n ≤ 57) ∨ (65 ≤ n ∧ n ≤ 70))

/-- Does a 5-character string match `[PCBU][0-3][0-9A-F]{3}`? -/
def isDtcCode : PStr → Bool
  | [a, b, c, d, e] =>
    isDtcLetter a && isDtcDigit b && isHexChar c && isHexChar d && isHexChar e
  | _ => false

/-- `re.findall(dtc_pattern, codes)`: scan left to right; on a match consume
its five characters and continue after it, otherwise advance one character. -/
def findCodes : PStr → List PStr
  | a :: b :: c :: d :: e :: rest =>
    if isDtcCode [a, b, c, d, e] then [a, b, c, d, e] :: findCodes rest
    else findCodes (b :: c :: d :: e :: rest)
  | _ => []

/-- `clean_dtc_codes(codes)`: missing → `""`; otherwise uppercase and join all
matches of the trouble-code pattern with single spaces. -/
def clean_dtc_codes (x : Cell) : PStr :=
  match x with
  | none => []
  | some v => spaceJoin (findCodes (pyUpper (astypeStr (some v))))

/-! ### DataFrames -/

/-- A pandas DataFrame: column names plus row-major cells. Rows of a
well-formed frame have one cell per column; all operations address cells
positionally, so no separate well-formedness hypothesis is needed. -/
structure DF where
  cols : List PStr
  rows : List (List Cell)
deriving DecidableEq, Repr

/-- Cells of column `j` (one per row that has an entry at position `j`). -/
def colCells (df : DF) (j : Nat) : List Cell :=
  df.rows.filterMap (fun r => r.get? j)

/-- Cells of the column named `name` (first occurrence, as `df[name]`). -/
def getNamedCol (df : DF) (name : PStr) : List Cell :=
  colCells df (df.cols.indexOf name)

/-- Apply `rule j` to every cell in column `j`, for all columns at once. Both
per-column loops of the source (`clean_data`'s field fixes and
`handle_missing_values`) read and write single columns, so they are modelled
uniformly through this combinator. -/
def mapIdxFrom (f : Nat → Cell → Cell) : Nat → List Cell → List Cell
  | _, [] => []
  | j, c :: r => f j c :: mapIdxFrom f (j + 1) r

def applyColRule (rule : Nat → Cell → Cell) (df : DF) : DF :=
  { cols := df.cols, rows := df.rows.map (mapIdxFrom rule 0) }

/-- `df[name] = df[name].apply(f)`-style single-column update (no-op when the
name is absent is enforced by the callers' `if col in df.columns` guards). -/
def mapCol (name : PStr) (f : Cell → Cell) (df : DF) : DF :=
  applyColRule (fun j c => if j = df.cols.indexOf name then f c else c) df

/-- Helper for `dedup`: `seen` holds the rows already emitted. -/
def dedupAux (seen : List (List Cell)) : List (List Cell) → List (List Cell)
  | [] => []
  | r :: rest => if r ∈ seen then dedupAux seen rest else r :: dedupAux (r :: seen) rest

/-- `df.drop_duplicates()`: keep the first occurrence of each distinct row
(pandas treats NaNs as equal to each other here, as does `Cell` equality). -/
def dedup (rows : List (List Cell)) : List (List Cell) := dedupAux [] rows

/-- Column-name normalization of `clean_data`:
`str.lower().str.replace(' ', '_').str.replace('-', '_')`. -/
def normColName (s : PStr) : PStr :=
  ((pyLower s).map (fun c => if c = 32 then 95 else c)).map
    (fun c => if c = 45 then 95 else c)

/-- The text fields cleaned by `clean_data` (lines 55-59). -/
def text_columns : List PStr := [pstr "symptoms", pstr "description", pstr "repair_notes"]

/-- Per-cell effect of lines 58-59: `astype(str).str.lower()` then
`apply(clean_text)`. Every cell becomes a present string. -/
def textCellOp (c : Cell) : Cell :=
  some (.s (clean_text (some (.s (pyLower (astypeStr c))))))

/-- Per-cell effect of `str.lower().str.strip()` on `make`/`model` (lines
62-65): pandas `.str` methods turn non-string cells into NaN. -/
def mmCellOp (c : Cell) : Cell :=
  match c with
  | some (.s t) => some (.s (pyStrip (pyLower t)))
  | _ => none

/-- Per-cell effect of `df['dtc_codes'].apply(clean_dtc_codes)` (line 69). -/
def dtcCellOp (c : Cell) : Cell := some (.s (clean_dtc_codes c))

/-- Does pandas consider the column numeric (`select_dtypes(include=[np.number])`)?
A column whose cells are all numbers or NaN has a numeric dtype; a column with
any string cell is object dtype; an empty frame's columns default to object. -/
def numericDtype (cells : List Cell) : Bool :=
  !cells.isEmpty && cells.all fun c =>
    match c with
    | some (.s _) => false
    | _ => true

/-- The numbers present in a column (skipping NaN, as pandas aggregations do). -/
def presentNums (cells : List Cell) : List ℚ :=
  cells.filterMap fun c =>
    match c with
    | some (.n q) => some q
    | _ => none

def insertAsc (x : ℚ) : List ℚ → List ℚ
  | [] => [x]
  | y :: l => if x ≤ y then x :: y :: l else y :: insertAsc x l

def sortAsc : List ℚ → List ℚ
  | [] => []
  | x :: l => insertAsc x (sortAsc l)

/-- `Series.median()` (skipna): `none` when no values are present; the middle
element for odd counts; the mean of the two middle elements for even counts. -/
def medianQ (xs : List ℚ) : Option ℚ :=
  let s := sortAsc xs
  let n := xs.length
  if n = 0 then none
  else if n % 2 = 1 then some (s.getD (n / 2) 0)
  else some ((s.getD (n / 2 - 1) 0 + s.getD (n / 2) 0) / 2)

/-- The per-cell imputation rule of `handle_missing_values` for column `j` of
`df`: numeric columns are filled with their own median (filling with NaN when
the median is undefined leaves the column unchanged); object columns are
filled with `"unknown"` for `make`/`model` and `""` otherwise. -/
def missingRule (df : DF) (j : Nat) (c : Cell) : Cell :=
  let col := colCells df j
  if numericDtype col then
    match c, medianQ (presentNums col) with
    | none, some m => some (.n m)
    | c, _ => c
  else
    match c with
    | none =>
      if df.cols.getD j [] = pstr "make" ∨ df.cols.getD j [] = pstr "model" then
        some (.s (pstr "unknown"))
      else some (.s [])
    | c => c

/-- `handle_missing_values` (lines 104-119). The source's two per-column loops
each read and write only the column at hand, so they are modelled as one
per-column transformation. -/
def handle_missing_values (df : DF) : DF := applyColRule (missingRule df) df

/-- `df.drop_duplicates()` (line 49). -/
def dedupStage (df : DF) : DF := { cols := df.cols, rows := dedup df.rows }

/-- Column-name standardization (line 52). -/
def renameStage (df : DF) : DF := { cols := df.cols.map normColName, rows := df.rows }

/-- A per-column cleaning loop: `for col in names: if col in df.columns:
df[col] = df[col].apply(op)`. -/
def stageFold (names : List PStr) (op : Cell → Cell) (df : DF) : DF :=
  names.foldl (fun d name => if name ∈ d.cols then mapCol name op d else d) df

/-- The text-field loop of lines 55-59. -/
def textStage (df : DF) : DF := stageFold text_columns textCellOp df

/-- The `make`/`model` normalization of lines 62-65. -/
def mmStage (df : DF) : DF := stageFold [pstr "make", pstr "model"] mmCellOp df

/-- The `dtc_codes` cleaning of lines 68-69. -/
def dtcStage (df : DF) : DF := stageFold [pstr "dtc_codes"] dtcCellOp df

/-- Stage aliases naming the intermediate frames of `clean_data` (used by the
idempotence development). -/
def cleanA (df : DF) : DF := renameStage (dedupStage df)

def cleanT (df : DF) : DF := textStage (cleanA df)

def cleanM (df : DF) : DF := mmStage (cleanT df)

def cleanX (df : DF) : DF := dtcStage (cleanM df)

/-- `clean_data` (lines 44-74): drop duplicates, normalize column names, clean
the text fields, normalize `make`/`model`, clean `dtc_codes`, then impute
missing values (`cleanX df` is
`dtcStage (mmStage (textStage (renameStage (dedupStage df))))`). -/
def clean_data (df : DF) : DF := handle_missing_values (cleanX df)

/-! ### Errors

Batch-level failures raised by the preprocessing code (each constructor notes
the Python exception it models). -/

inductive PError where
  /-- `ValueError("No data found to process")` (preprocess_pipeline line 311). -/
  | emptyInput
  /-- `ValueError("Target column ... not found in data")` (encode_labels line 267);
  the spec's `MissingTargetColumnError`. -/
  | missingTargetColumn (name : PStr)
  /-- `AttributeError`: the `.str` accessor on a numeric-dtype column
  (encode_labels line 270 when the target column holds only numbers/NaN). -/
  | strAccessorOnNumeric
  /-- `TypeError` inside `LabelEncoder.fit_transform`: `np.unique` cannot order
  NaN against strings (a missing or non-string value survives to line 298). -/
  | mixedLabelTypes
  /-- `ValueError("empty vocabulary ...")` from `TfidfVectorizer.fit_transform`
  when no token survives tokenization and stop-word removal (line 193). -/
  | emptyVocabulary
  /-- `ValueError` from `StandardScaler.fit_transform` on an empty feature
  matrix (0 samples or 0 features) (line 332). -/
  | badFeatureMatrix
  /-- `ValueError("Input contains NaN")` from `StandardScaler.fit_transform`
  (line 332). -/
  | nanInFeatures
deriving DecidableEq, Repr

deriving instance DecidableEq for Except

/-! ### `encode_labels` (data-preprocessing.py lines 264-302) -/

/-- The fixed synonym-to-category substitution table, in source (dict
insertion) order — the order is semantically significant since the
substitutions cascade. -/
def label_mapping : List (PStr × PStr) :=
  [ (pstr "battery", pstr "Battery/Charging System")
  , (pstr "charging", pstr "Battery/Charging System")
  , (pstr "alternator", pstr "Battery/Charging System")
  , (pstr "ground", pstr "Ground Circuit")
  , (pstr "grounding", pstr "Ground Circuit")
  , (pstr "lights", pstr "Lighting System")
  , (pstr "lighting", pstr "Lighting System")
  , (pstr "headlight", pstr "Lighting System")
  , (pstr "wiring", pstr "Wiring Harness")
  , (pstr "harness", pstr "Wiring Harness")
  , (pstr "wire", pstr "Wiring Harness")
  , (pstr "fuse", pstr "Fuse/Relay")
  , (pstr "relay", pstr "Fuse/Relay")
  , (pstr "switch", pstr "Switch/Control Module")
  , (pstr "module", pstr "Switch/Control Module")
  , (pstr "sensor", pstr "Sensor Circuit") ]

/-- Lines 293-294: `labels.str.replace(key, value.lower())` for every table
entry in order (plain substring replacement). -/
def applyLabelMapping (t : PStr) : PStr :=
  label_mapping.foldl (fun s kv => pyReplace kv.1 (pyLower kv.2) s) t

/-- Lexicographic comparison of code-point strings (the order `np.unique`
sorts Python strings by). -/
def lexLe : PStr → PStr → Bool
  | [], _ => true
  | _ :: _, [] => false
  | a :: s, b :: t => decide (a < b) || (decide (a = b) && lexLe s t)

def insertLex (x : PStr) : List PStr → List PStr
  | [] => [x]
  | y :: l => if lexLe x y then x :: y :: l else y :: insertLex x l

def sortLex : List PStr → List PStr
  | [] => []
  | x :: l => insertLex x (sortLex l)

def dedupStr (seen : List PStr) : List PStr → List PStr
  | [] => []
  | s :: rest => if s ∈ seen then dedupStr seen rest else s :: dedupStr (s :: seen) rest

/-- `LabelEncoder` classes: `np.unique` = sorted distinct values. -/
def leClasses (labels : List PStr) : List PStr := sortLex (dedupStr [] labels)

/-- `encode_labels(df, target_column)`: raise if the target column is absent;
otherwise lowercase/strip it, cascade the synonym substitutions, and encode
with a `LabelEncoder` (integer = index into the sorted distinct values).
`.str` methods map non-string cells to NaN, and raise outright on a
numeric-dtype column; a NaN surviving to the encoder is a `TypeError`. -/
def encode_labels (df : DF) (target_column : PStr) :
    Except PError (List Nat × List PStr) :=
  if target_column ∉ df.cols then .error (.missingTargetColumn target_column)
  else
    let col := getNamedCol df target_column
    if numericDtype col then .error .strAccessorOnNumeric
    else
      let labels : List Cell := col.map fun c =>
        match c with
        | some (.s t) => some (.s (applyLabelMapping (pyStrip (pyLower t))))
        | _ => none
      if labels.any (fun c => c matches none) then .error .mixedLabelTypes
      else
        let strs := labels.filterMap fun c =>
          match c with
          | some (.s t) => some t
          | _ => none
        let classes := leClasses strs
        .ok (strs.map (fun t => classes.indexOf t), classes)

/-! ### Fault patterns (`scripts/fault-patterns.py`)

Symptom tags and metadata are plain string literals, only compared for
equality, so Lean `String` is used directly here. -/

/-- A knowledge-base entry. The analyzer code reads only `symptoms`,
`progression`, `environmental_factors` and `affected_systems`; the
per-entry extras (`severity_levels`, `common_locations`, `detection_methods`,
`risk_level`, `mitigation`) are never read by any code and are omitted. -/
structure FaultPattern where
  symptoms : List String
  progression : String
  environmental_factors : List String
  affected_systems : List String
deriving DecidableEq, Repr

/-- The static `fault_patterns` dict, in declaration order. -/
def fault_patterns : List (String × FaultPattern) :=
  [ ("wire_degradation",
     { symptoms := ["intermittent_connection", "voltage_drop", "resistance_increase"]
     , progression := "gradual"
     , environmental_factors := ["temperature", "vibration", "moisture"]
     , affected_systems := ["engine", "transmission", "body_control"] })
  , ("connector_corrosion",
     { symptoms := ["high_resistance", "signal_loss", "dtc_codes"]
     , progression := "gradual"
     , environmental_factors := ["moisture", "salt_exposure", "temperature_cycling"]
     , affected_systems := ["all_electrical_systems"] })
  , ("terminal_crimping_failure",
     { symptoms := ["intermittent_connection", "complete_signal_loss", "arcing"]
     , progression := "sudden"
     , environmental_factors := ["vibration", "temperature_cycling"]
     , affected_systems := ["power_distribution", "control_modules"] })
  , ("insulation_failure",
     { symptoms := ["short_circuits", "blown_fuses", "electrical_fires"]
     , progression := "gradual_then_sudden"
     , environmental_factors := ["heat", "abrasion", "chemical_exposure"]
     , affected_systems := ["all_electrical_systems"] })
  , ("electromagnetic_interference",
     { symptoms := ["signal_disruption", "false_readings", "communication_errors"]
     , progression := "intermittent"
     , environmental_factors := ["radio_frequency", "ignition_system", "alternator"]
     , affected_systems := ["communication_networks", "sensor_systems"] }) ]

/-- The integer `match_score` loop: how many input tags occur in the entry's
symptom list (input tags are counted with multiplicity, as in the source). -/
def matchScore (symptoms : List String) (p : FaultPattern) : Nat :=
  (symptoms.filter (fun s => s ∈ p.symptoms)).length

/-- The reported score: matched count over the entry's symptom-list size. -/
def scoreQ (symptoms : List String) (p : FaultPattern) : ℚ :=
  (matchScore symptoms p : ℚ) / (p.symptoms.length : ℚ)

/-- One analyzer result: pattern name, score, and the entry itself (the
`{'score': ..., 'pattern': ...}` payload). -/
abbrev MatchResult := String × ℚ × FaultPattern

/-- Stable descending insertion by score: an element is inserted after every
strictly greater score and before equal ones, which is exactly the order
Python's stable `sorted(..., reverse=True)` produces. -/
def insertDesc (x : MatchResult) : List MatchResult → List MatchResult
  | [] => [x]
  | y :: l => if x.2.1 < y.2.1 then y :: insertDesc x l else x :: y :: l

def sortDesc : List MatchResult → List MatchResult
  | [] => []
  | x :: l => insertDesc x (sortDesc l)

/-- `FaultPatternAnalyzer.analyze_symptoms` (fault-patterns.py lines 50-66):
collect entries with nonzero score in declaration order, then sort by
descending score (stably, so ties keep declaration order). -/
def analyze_symptoms (symptoms : List String) : List MatchResult :=
  sortDesc ((fault_patterns.filter fun np => 0 < matchScore symptoms np.2).map
    fun np => (np.1, scoreQ symptoms np.2, np.2))

/-! ### Feature extraction (data-preprocessing.py lines 121-262)

A feature block is a list of named numeric columns; `Option ℚ` entries model
float columns with NaN. -/

abbrev QN := Option ℚ

abbrev Block := List (PStr × List QN)

/-- Numeric view of a cell, as pandas arithmetic sees it (non-numeric cells of
an object column propagate as NaN). -/
def qnNum (c : Cell) : QN :=
  match c with
  | some (.n q) => some q
  | _ => none

/-- `Series.min()` (skipna): `none` when no value is present. -/
def qnMin (xs : List QN) : QN :=
  match xs.filterMap id with
  | [] => none
  | x :: r => some (r.foldl min x)

/-- `Series.max()` (skipna). -/
def qnMax (xs : List QN) : QN :=
  match xs.filterMap id with
  | [] => none
  | x :: r => some (r.foldl max x)

/-- `pd.cut(mileage, bins=[0, 50000, 100000, 150000, 200000, inf], labels=[0..4])`:
pandas bins are left-open and right-closed by default (`include_lowest` is not
set), so a mileage of exactly 0 (or below) falls in no bin and yields NaN. -/
def mileage_category (m : ℚ) : Option Nat :=
  if m ≤ 0 then none
  else if m ≤ 50000 then some 0
  else if m ≤ 100000 then some 1
  else if m ≤ 150000 then some 2
  else if m ≤ 200000 then some 3
  else some 4

def common_makes : List PStr :=
  [pstr "ford", pstr "chevrolet", pstr "toyota", pstr "honda", pstr "nissan"]

/-- `extract_vehicle_features` (lines 145-168). `current_year` is the ambient
`pd.Timestamp.now().year`, made an explicit parameter. -/
def extract_vehicle_features (df : DF) (current_year : ℚ) : Block :=
  (if pstr "year" ∈ df.cols then
    let ages := (getNamedCol df (pstr "year")).map fun c =>
      (qnNum c).map (fun y => current_year - y)
    let mn := qnMin ages
    let mx := qnMax ages
    let norm := ages.map fun a =>
      match a, mn, mx with
      | some x, some m, some M =>
        if M - m = 0 then none else some ((x - m) / (M - m))
      | _, _, _ => none
    [(pstr "vehicle_age", ages), (pstr "vehicle_age_normalized", norm)]
  else []) ++
  (if pstr "mileage" ∈ df.cols then
    [(pstr "mileage_category",
      (getNamedCol df (pstr "mileage")).map fun c =>
        (qnNum c).bind fun m => (mileage_category m).map (fun k => (k : ℚ)))]
  else []) ++
  (if pstr "make" ∈ df.cols then
    let col := getNamedCol df (pstr "make")
    (common_makes.map fun mk =>
      (pstr "make_" ++ mk,
       col.map fun c => some (if c = some (.s mk) then (1 : ℚ) else 0))) ++
    [(pstr "make_other",
      col.map fun c =>
        let hit : Bool :=
          match c with
          | some (.s t) => decide (t ∈ common_makes)
          | _ => false
        some (if hit then (0 : ℚ) else 1))]
  else [])

/-- The `symptom_keywords` categories (lines 176-184), in source order. The
keyword `won't start` is built around an explicit apostrophe code point. -/
def symptom_keywords : List (PStr × List PStr) :=
  [ (pstr "battery", [pstr "battery", pstr "dead", pstr "weak", pstr "won" ++ [39] ++ pstr "t start"])
  , (pstr "lights", [pstr "lights", pstr "headlight", pstr "dim", pstr "flickering", pstr "bright"])
  , (pstr "starting", [pstr "starting", pstr "starter", pstr "crank", pstr "turn over"])
  , (pstr "charging", [pstr "charging", pstr "alternator", pstr "voltage"])
  , (pstr "electrical", [pstr "electrical", pstr "power", pstr "fuse", pstr "blown", pstr "short"])
  , (pstr "intermittent", [pstr "intermittent", pstr "sometimes", pstr "occasionally", pstr "random"])
  , (pstr "multiple_systems", [pstr "multiple", pstr "several", pstr "various", pstr "all"]) ]

/-- Fitted `TfidfVectorizer` state: the vocabulary (alphabetical, as sklearn
stores it), per-term document frequencies, and the corpus size — the data that
determines every tf-idf weight. -/
structure VectorizerState where
  vocab : List PStr
  doc_freq : List Nat
  n_docs : Nat
deriving DecidableEq, Repr

/-- A fragment of sklearn's built-in English stop-word list (the full frozen
list has 318 entries; membership of any particular word is irrelevant to every
claim, so only a representative fragment is carried). -/
def sklearnStopWords : List PStr :=
  [ pstr "a", pstr "an", pstr "and", pstr "are", pstr "as", pstr "at", pstr "be"
  , pstr "but", pstr "by", pstr "for", pstr "from", pstr "has", pstr "he"
  , pstr "in", pstr "is", pstr "it", pstr "its", pstr "of", pstr "on"
  , pstr "that", pstr "the", pstr "to", pstr "was", pstr "were", pstr "will"
  , pstr "with", pstr "not", pstr "no", pstr "all", pstr "over" ]

/-- Maximal runs of word characters (helper for sklearn tokenization). -/
def wordRunsAux : PStr → PStr → List PStr
  | [], acc => if acc.isEmpty then [] else [acc.reverse]
  | c :: rest, acc =>
    if isWordChar c then wordRunsAux rest (c :: acc)
    else if acc.isEmpty then wordRunsAux rest []
    else acc.reverse :: wordRunsAux rest []

/-- sklearn tokenization: lowercase, take maximal word-character runs matching
`\w\w+` (length at least two), then drop stop words. -/
def tokensOf (t : PStr) : List PStr :=
  ((wordRunsAux (pyLower t) []).filter fun w => 2 ≤ w.length).filter
    fun w => w ∉ sklearnStopWords

/-- Corpus-wide term count (used by `max_features` selection). -/
def termCount (docs : List (List PStr)) (term : PStr) : Nat :=
  (docs.map fun d => d.count term).sum

def insertByCount (docs : List (List PStr)) (x : PStr) : List PStr → List PStr
  | [] => [x]
  | y :: l =>
    if termCount docs y > termCount docs x ∨
        (termCount docs y = termCount docs x ∧ lexLe y x) then
      y :: insertByCount docs x l
    else x :: y :: l

/-- Terms sorted by descending corpus frequency (ties lexicographic — the
precise tie order among equally frequent terms is a library detail no claim
depends on). -/
def sortByCount (docs : List (List PStr)) : List PStr → List PStr
  | [] => []
  | x :: l => insertByCount docs x (sortByCount docs l)

/-- The fitted vocabulary: distinct non-stop tokens, capped at the 100 most
frequent (`max_features=100`), stored alphabetically. -/
def buildVocab (docs : List (List PStr)) : List PStr :=
  let cands := dedupStr [] docs.flatten
  if cands.length ≤ 100 then sortLex cands
  else sortLex ((sortByCount docs cands).take 100)

/-- Stand-in for one tf-idf matrix entry. The true sklearn value is the
l2-normalised `tf · (ln((1+n)/(1+df)) + 1)`, which is irrational in general
and therefore not representable here; a zero term frequency gives exactly 0,
and a nonzero one is represented injectively by the data `(tf, df, n)` that
determines it. No claim inspects these numeric values. -/
def tfidfProxy (tf dfc n : Nat) : ℚ :=
  if tf = 0 then 0 else (Nat.pair tf (Nat.pair dfc n) : ℚ) + 1

def natToPStr (i : Nat) : PStr := pstr (toString i)

/-- `extract_symptom_features` (lines 170-198): keyword indicator columns, then
(provided some symptom value is non-missing) the freshly fitted tf-idf block.
`str.contains(..., na=False)` sends missing and non-string cells to 0. Fitting
on a corpus with no surviving token raises sklearn's empty-vocabulary error. -/
def extract_symptom_features (df : DF) :
    Except PError (Block × Option VectorizerState) :=
  if pstr "symptoms" ∈ df.cols then
    let col := getNamedCol df (pstr "symptoms")
    let kwBlock : Block := symptom_keywords.map fun ck =>
      (pstr "symptoms_" ++ ck.1,
       col.map fun c =>
         some (match c with
               | some (.s t) => if ck.2.any (fun k => containsSub k t) then (1 : ℚ) else 0
               | _ => 0))
    if col.all (·.isNone) then .ok (kwBlock, none)
    else
      let corpus := col.map fun c =>
        match c with
        | none => []
        | some v => astypeStr (some v)
      let docs := corpus.map tokensOf
      let vocab := buildVocab docs
      if vocab.isEmpty then .error .emptyVocabulary
      else
        let n := docs.length
        let freqs := vocab.map fun term => (docs.filter fun d => term ∈ d).length
        let tfidfBlock : Block :=
          (List.range vocab.length).map fun i =>
            (pstr "tfidf_" ++ natToPStr i,
             docs.map fun d =>
               some (tfidfProxy (d.count (vocab.getD i [])) (freqs.getD i 0) n))
        .ok (kwBlock ++ tfidfBlock, some ⟨vocab, freqs, n⟩)
  else .ok ([], none)

/-- Threshold indicator: `(df[col] < thr).astype(int)` — a NaN comparison is
False, hence 0. -/
def qnLtInd (thr : ℚ) (c : QN) : QN :=
  some (match c with
        | some x => if x < thr then (1 : ℚ) else 0
        | none => 0)

def qnGtInd (thr : ℚ) (c : QN) : QN :=
  some (match c with
        | some x => if thr < x then (1 : ℚ) else 0
        | none => 0)

/-- `extract_measurement_features` (lines 200-226). The charging ratio divides
by `battery_voltage + 1e-6`; a zero divisor would be an IEEE infinity, which is
modelled as missing (no repository claim reaches that case). -/
def extract_measurement_features (df : DF) : Block :=
  (if pstr "battery_voltage" ∈ df.cols then
    let col := (getNamedCol df (pstr "battery_voltage")).map qnNum
    [ (pstr "battery_voltage_normalized", col)
    , (pstr "battery_low", col.map (qnLtInd 12))
    , (pstr "battery_high", col.map (qnGtInd 14)) ]
  else []) ++
  (if pstr "alternator_output" ∈ df.cols then
    let col := (getNamedCol df (pstr "alternator_output")).map qnNum
    [ (pstr "alternator_output_normalized", col)
    , (pstr "alternator_low", col.map (qnLtInd (27/2)))
    , (pstr "alternator_high", col.map (qnGtInd 15)) ]
  else []) ++
  (if pstr "ground_resistance" ∈ df.cols then
    let col := (getNamedCol df (pstr "ground_resistance")).map qnNum
    [ (pstr "ground_resistance_normalized", col)
    , (pstr "ground_high", col.map (qnGtInd (1/2))) ]
  else []) ++
  (if pstr "battery_voltage" ∈ df.cols ∧ pstr "alternator_output" ∈ df.cols then
    let batt := (getNamedCol df (pstr "battery_voltage")).map qnNum
    let alt := (getNamedCol df (pstr "alternator_output")).map qnNum
    [ (pstr "charging_differential",
       List.zipWith (fun a b =>
         match a, b with
         | some x, some y => some (x - y)
         | _, _ => none) alt batt)
    , (pstr "charging_" ++ pstr "ratio",
       List.zipWith (fun a b =>
         match a, b with
         | some x, some y =>
           if y + 1 / 1000000 = 0 then none else some (x / (y + 1 / 1000000))
         | _, _ => none) alt batt) ]
  else [])

/-- `str.count(f'{L}[0-3][0-9A-F]{{3}}')`: non-overlapping matches of the
single-letter trouble-code pattern, scanning left to right. -/
def countDtcLetter (letter : Nat) : PStr → Nat
  | a :: b :: c :: d :: e :: rest =>
    if isDtcCode [a, b, c, d, e] && a == letter then countDtcLetter letter rest + 1
    else countDtcLetter letter (b :: c :: d :: e :: rest)
  | _ => 0

/-- The per-letter count column: `str.count` maps missing or non-string cells
to NaN. -/
def dtcCountCol (letter : Nat) (col : List Cell) : List QN :=
  col.map fun c =>
    match c with
    | some (.s t) => some ((countDtcLetter letter t : ℚ))
    | _ => none

/-- Row-wise `sum(axis=1)` over the four count columns (skipna: missing counts
contribute 0, an all-NaN row sums to 0). -/
def sumSkipna4 : List QN → List QN → List QN → List QN → List QN
  | a :: as, b :: bs, c :: cs, d :: ds =>
    some (a.getD 0 + b.getD 0 + c.getD 0 + d.getD 0) :: sumSkipna4 as bs cs ds
  | _, _, _, _ => []

/-- The high-signal codes of line 244. -/
def common_codes : List PStr :=
  [pstr "P0601", pstr "P0562", pstr "P0563", pstr "B1000", pstr "U0100"]

/-- `extract_dtc_features` (lines 228-248). Letter loop order is `P, B, C, U`
(line 234). `str.contains(code).astype(int)` on a missing cell would raise in
pandas (NaN cannot be cast to int); through the pipeline the cleaned
`dtc_codes` column is always all-string, and the model propagates missing
instead of raising. -/
def extract_dtc_features (df : DF) : Block :=
  if pstr "dtc_codes" ∈ df.cols then
    let col := getNamedCol df (pstr "dtc_codes")
    let cntP := dtcCountCol 80 col
    let cntB := dtcCountCol 66 col
    let cntC := dtcCountCol 67 col
    let cntU := dtcCountCol 85 col
    let hasOf := fun (cnt : List QN) => cnt.map (qnGtInd 0)
    [ (pstr "dtc_p_count", cntP), (pstr "has_dtc_p", hasOf cntP)
    , (pstr "dtc_b_count", cntB), (pstr "has_dtc_b", hasOf cntB)
    , (pstr "dtc_c_count", cntC), (pstr "has_dtc_c", hasOf cntC)
    , (pstr "dtc_u_count", cntU), (pstr "has_dtc_u", hasOf cntU)
    , (pstr "total_dtc_count", sumSkipna4 cntP cntB cntC cntU) ] ++
    common_codes.map fun code =>
      (pstr "has_" ++ pyLower code,
       col.map fun c =>
         match c with
         | some (.s t) => some (if containsSub code t then (1 : ℚ) else 0)
         | _ => none)
  else []

/-- Month of a date cell under `pd.to_datetime`, modelled for ISO
`YYYY-MM-...` strings (the repository's date format); anything unparseable
raises in pandas and is modelled as missing. -/
def parseMonth (c : Cell) : Option Nat :=
  match c with
  | some (.s t) =>
    if 7 ≤ t.length ∧ t.getD 4 0 = 45 ∧
        (48 ≤ t.getD 5 0 ∧ t.getD 5 0 ≤ 57) ∧ (48 ≤ t.getD 6 0 ∧ t.getD 6 0 ≤ 57) then
      let m := 10 * (t.getD 5 0 - 48) + (t.getD 6 0 - 48)
      if 1 ≤ m ∧ m ≤ 12 then some m else none
    else none
  | _ => none

/-- `extract_temporal_features` (lines 250-262): month, season = `(month-1)//3`
(0 = winter ... 3 = fall), and an is-winter flag; no columns when no date or
timestamp field exists. -/
def extract_temporal_features (df : DF) : Block :=
  if pstr "date" ∈ df.cols ∨ pstr "timestamp" ∈ df.cols then
    let name := if pstr "date" ∈ df.cols then pstr "date" else pstr "timestamp"
    let months := (getNamedCol df name).map parseMonth
    let seasons := months.map fun mo => mo.map fun m => ((m - 1) / 3 : Nat)
    [ (pstr "month", months.map fun mo => mo.map fun m => (m : ℚ))
    , (pstr "season", seasons.map fun so => so.map fun s => (s : ℚ))
    , (pstr "is_winter",
       seasons.map fun so => some (if so = some 0 then (1 : ℚ) else 0)) ]
  else []

/-- `extract_features` (lines 121-143): the five blocks concatenated in order;
`feature_names` is the concatenated column-name list. Only the symptom block
can fail (vectorizer fitting). -/
def extract_features (df : DF) (current_year : ℚ) :
    Except PError (Block × Option VectorizerState) :=
  match extract_symptom_features df with
  | .error e => .error e
  | .ok (sb, vs) =>
    .ok (extract_vehicle_features df current_year ++ sb ++
         extract_measurement_features df ++ extract_dtc_features df ++
         extract_temporal_features df, vs)

/-! ### StandardScaler and the pipeline (lines 304-361) -/

def qMean (xs : List ℚ) : ℚ := xs.sum / (xs.length : ℚ)

/-- Population variance, as `StandardScaler` computes it (`ddof = 0`). -/
def qVar (xs : List ℚ) : ℚ :=
  ((xs.map fun x => (x - qMean xs) * (x - qMean xs)).sum) / (xs.length : ℚ)

/-- Per-column `(mean_, var_)` as stored by a fitted `StandardScaler`. -/
abbrev ScalerState := List (ℚ × ℚ)

def scalerParams (fb : Block) : ScalerState :=
  fb.map fun col => (qMean (col.2.filterMap id), qVar (col.2.filterMap id))

/-- `StandardScaler().fit_transform(features)`: rejects an empty matrix (0
samples or 0 features) and any NaN entry; otherwise standardizes each column
with its own mean and variance. A standardized entry `(x − mean)/√var` is
irrational in general (`√var`), so it is represented exactly by the pair
`(x − mean, var)`; sklearn divides by 1 when `var = 0`, so the pair determines
the real value either way. -/
def scaler_fit_transform (fb : Block) :
    Except PError (ScalerState × List (List (ℚ × ℚ))) :=
  if fb.isEmpty || fb.any (fun col => col.2.isEmpty) then .error .badFeatureMatrix
  else if fb.any (fun col => col.2.any (·.isNone)) then .error .nanInFeatures
  else
    .ok (scalerParams fb,
      (fb.zip (scalerParams fb)).map fun p => p.1.2.map fun c => (c.getD 0 - p.2.1, p.2.2))

/-- `load_raw_data` (lines 22-42): parse every discovered file and concatenate
(`pd.concat(..., ignore_index=True)`): the column set is the union in order of
first appearance, and a file's missing columns are NaN for its rows; no files
(or only empty ones) give an empty frame rather than an error. -/
def load_raw_data (files : List DF) : DF :=
  let cols := files.foldl (fun acc f => acc ++ f.cols.filter (fun c => c ∉ acc)) []
  { cols := cols
  , rows := (files.map fun f =>
      f.rows.map fun r =>
        cols.map fun name =>
          if name ∈ f.cols then r.getD (f.cols.indexOf name) none else none).flatten }

/-- The `metadata.json` document (lines 344-349). -/
structure Metadata where
  feature_names : List PStr
  class_names : Option (List PStr)
  num_features : Nat
  num_samples : Nat
deriving DecidableEq, Repr

/-- Everything a successful pipeline run returns and persists: the scaled
matrix (column-major; names in the metadata), the optional label vector, the
metadata document, the three pieces of transformation state, and the artifact
files written. -/
structure PipelineOutput where
  features_scaled : List (List (ℚ × ℚ))
  labels : Option (List Nat)
  metadata : Metadata
  scaler_state : ScalerState
  label_encoder_classes : Option (List PStr)
  vectorizer_state : Option VectorizerState
  written_files : List String
deriving DecidableEq, Repr

/-- `preprocess_pipeline` (lines 304-361): load, reject an empty frame, clean,
extract features, encode labels only when the target column is present, then
`fit_transform` the scaler on this batch's features and persist. Every fit is
a fresh fit of the current batch — no previously persisted state is loaded
anywhere. -/
def preprocess_pipeline (files : List DF) (current_year : ℚ)
    (target_column : PStr) : Except PError PipelineOutput :=
  let df := load_raw_data files
  if df.rows.isEmpty || df.cols.isEmpty then .error .emptyInput
  else
    let df_clean := clean_data df
    match extract_features df_clean current_year with
    | .error e => .error e
    | .ok (features, vecState) =>
      let labelStep : Except PError (Option (List Nat × List PStr)) :=
        if target_column ∈ df_clean.cols then
          match encode_labels df_clean target_column with
          | .error e => .error e
          | .ok r => .ok (some r)
        else .ok none
      match labelStep with
      | .error e => .error e
      | .ok labelsOpt =>
        match scaler_fit_transform features with
        | .error e => .error e
        | .ok (st, scaled) =>
          .ok { features_scaled := scaled
              , labels := labelsOpt.map (·.1)
              , metadata :=
                  { feature_names := features.map (·.1)
                  , class_names := labelsOpt.map (·.2)
                  , num_features := features.length
                  , num_samples := ((features.head?.map fun c => c.2.length)).getD 0 }
              , scaler_state := st
              , label_encoder_classes := labelsOpt.map (·.2)
              , vectorizer_state := vecState
              , written_files :=
                  ["features.npy"] ++
                  (if labelsOpt.isSome then ["labels.npy"] else []) ++
                  ["metadata.json", "scaler.pkl", "label_encoders.pkl",
                   "symptom_vectorizer.pkl"] }

/-! ## Claim-side (spec-worded) definitions used for refutation -/

/-- Alphanumeric code point (letter or digit), for the claim's reading of the
trouble-code pattern ("three alphanumeric characters"); the input is
uppercased first, so both letter cases are included for faithfulness to the
words. -/
def isAlnumChar (n : Nat) : Bool :=
  decide ((48 ≤ n ∧ n ≤ 57) ∨ (65 ≤ n ∧ n ≤ 90) ∨ (97 ≤ n ∧ n ≤ 122))

/-- The claim's trouble-code pattern: one letter from `{P,C,B,U}`, one digit
`0`-`3`, three alphanumeric characters. -/
def isClaimDtcCode : PStr → Bool
  | [a, b, c, d, e] =>
    isDtcLetter a && isDtcDigit b && isAlnumChar c && isAlnumChar d && isAlnumChar e
  | _ => false

/-- Left-to-right non-overlapping matches of the claim's pattern. -/
def findClaimCodes : PStr → List PStr
  | a :: b :: c :: d :: e :: rest =>
    if isClaimDtcCode [a, b, c, d, e] then [a, b, c, d, e] :: findClaimCodes rest
    else findClaimCodes (b :: c :: d :: e :: rest)
  | _ => []

/-- Modelled from the claim's words for C5: "uppercases its input and keeps
exactly the substrings matching the canonical trouble-code pattern (one letter
from {P,C,B,U}, one digit 0-3, three alphanumeric characters), joined by
single spaces in order of appearance". -/
def claimDtcClean (x : Cell) : PStr :=
  match x with
  | none => []
  | some v => spaceJoin (findClaimCodes (pyUpper (astypeStr (some v))))

/-- Position of a result's pattern in the knowledge base's declaration order. -/
def declIdx (x : MatchResult) : Nat := (fault_patterns.map Prod.fst).indexOf x.1

/-- The order the claim asserts: strictly greater score first, ties broken by
knowledge-base declaration order. -/
def analyzerOrder (a b : MatchResult) : Prop :=
  b.2.1 < a.2.1 ∨ (a.2.1 = b.2.1 ∧ declIdx a < declIdx b)

/-- The entries the claim says are returned: exactly the knowledge-base
entries with nonzero score, in declaration order, with their scores. -/
def matchesFor (symptoms : List String) : List MatchResult :=
  (fault_patterns.filter fun np => 0 < matchScore symptoms np.2).map
    fun np => (np.1, scoreQ symptoms np.2, np.2)

/-! ## Lemmas about the string primitives -/

theorem isSpaceChar_eq_false_of_ge {c : Nat} (h : 33 ≤ c) : isSpaceChar c = false := by
  simp only [isSpaceChar, decide_eq_false_iff_not]
  omega

theorem pySplitAux_sound :
    ∀ (s acc : PStr), (∀ c ∈ acc, isSpaceChar c = false) →
      ∀ w ∈ pySplitAux s acc,
        w ≠ [] ∧ ∀ c ∈ w, isSpaceChar c = false ∧ (c ∈ s ∨ c ∈ acc) := by
  intro s
  induction s with
  | nil =>
    intro acc hacc w hw
    simp only [pySplitAux] at hw
    split at hw
    · simp at hw
    · rename_i hne
      simp only [List.mem_singleton] at hw
      subst hw
      refine ⟨by simpa [List.isEmpty_iff] using hne, ?_⟩
      intro c hc
      rw [List.mem_reverse] at hc
      exact ⟨hacc c hc, Or.inr hc⟩
  | cons a s ih =>
    intro acc hacc w hw
    simp only [pySplitAux] at hw
    by_cases hsp : isSpaceChar a
    · rw [if_pos hsp] at hw
      split at hw
      · obtain ⟨hne, hall⟩ := ih [] (by simp) w hw
        exact ⟨hne, fun c hc => ⟨(hall c hc).1,
          Or.inl (List.mem_cons_of_mem _ ((hall c hc).2.resolve_right (by simp)))⟩⟩
      · rename_i hne
        rcases List.mem_cons.mp hw with h | h
        · subst h
          refine ⟨by simpa [List.isEmpty_iff] using hne, ?_⟩
          intro c hc
          rw [List.mem_reverse] at hc
          exact ⟨hacc c hc, Or.inr hc⟩
        · obtain ⟨hne2, hall⟩ := ih [] (by simp) w h
          exact ⟨hne2, fun c hc => ⟨(hall c hc).1,
            Or.inl (List.mem_cons_of_mem _ ((hall c hc).2.resolve_right (by simp)))⟩⟩
    · rw [if_neg hsp] at hw
      obtain ⟨hne, hall⟩ := ih (a :: acc)
        (by
          intro c hc
          rcases List.mem_cons.mp hc with h | h
          · subst h; simpa using hsp
          · exact hacc c h) w hw
      refine ⟨hne, ?_⟩
      intro c hc
      obtain ⟨h1, h2⟩ := hall c hc
      refine ⟨h1, ?_⟩
      rcases h2 with h | h
      · exact Or.inl (List.mem_cons_of_mem _ h)
      · rcases List.mem_cons.mp h with h | h
        · subst h; exact Or.inl (List.mem_cons_self _ _)
        · exact Or.inr h

/-- Words produced by `pySplit` are nonempty, space-free, and drawn from the
input. -/
theorem pySplit_sound (s : PStr) :
    ∀ w ∈ pySplit s, w ≠ [] ∧ ∀ c ∈ w, isSpaceChar c = false ∧ c ∈ s := by
  intro w hw
  obtain ⟨hne, hall⟩ := pySplitAux_sound s [] (by simp) w hw
  exact ⟨hne, fun c hc => ⟨(hall c hc).1, (hall c hc).2.resolve_right (by simp)⟩⟩

theorem pySplitAux_append_nonspace :
    ∀ (w s acc : PStr), (∀ c ∈ w, isSpaceChar c = false) →
      pySplitAux (w ++ s) acc = pySplitAux s (w.reverse ++ acc) := by
  intro w
  induction w with
  | nil => intro s acc _; simp
  | cons a w ih =>
    intro s acc hw
    have ha : isSpaceChar a = false := hw a (List.mem_cons_self _ _)
    simp only [List.cons_append, pySplitAux, ha, Bool.false_eq_true, if_false,
      List.reverse_cons, List.append_assoc, List.singleton_append]
    exact ih s (a :: acc) (fun c hc => hw c (List.mem_cons_of_mem _ hc))

theorem pySplit_spaceJoin :
    ∀ ws : List PStr, (∀ w ∈ ws, w ≠ [] ∧ ∀ c ∈ w, isSpaceChar c = false) →
      pySplit (spaceJoin ws) = ws := by
  intro ws
  induction ws with
  | nil => intro _; rfl
  | cons w ws ih =>
    intro h
    obtain ⟨hne, hsp⟩ := h w (List.mem_cons_self _ _)
    cases ws with
    | nil =>
      show pySplit (spaceJoin [w]) = [w]
      unfold pySplit
      rw [show spaceJoin [w] = w ++ [] by simp [spaceJoin],
        pySplitAux_append_nonspace w [] [] hsp]
      simp only [pySplitAux, List.append_nil, List.isEmpty_eq_true,
        List.reverse_eq_nil_iff]
      rw [if_neg hne]
      simp
    | cons u ws' =>
      show pySplit (w ++ 32 :: spaceJoin (u :: ws')) = w :: u :: ws'
      unfold pySplit
      rw [pySplitAux_append_nonspace w _ [] hsp]
      have h32 : isSpaceChar 32 = true := by decide
      simp only [pySplitAux, h32, if_true, List.append_nil, List.isEmpty_eq_true,
        List.reverse_eq_nil_iff]
      rw [if_neg hne]
      simp only [List.reverse_reverse, List.cons.injEq, true_and]
      exact ih (fun v hv => h v (List.mem_cons_of_mem _ hv))

/-! ## Lemmas about diagnostic-code extraction -/

theorem isDtcCode_shape {w : PStr} (h : isDtcCode w = true) :
    ∃ a b c d e, w = [a, b, c, d, e] := by
  match w with
  | [a, b, c, d, e] => exact ⟨a, b, c, d, e, rfl⟩
  | [] | [_] | [_, _] | [_, _, _] | [_, _, _, _] => simp [isDtcCode] at h
  | _ :: _ :: _ :: _ :: _ :: _ :: _ => simp [isDtcCode] at h

theorem isDtcCode_chars {a b c d e : Nat}
    (h : isDtcCode [a, b, c, d, e] = true) :
    (48 ≤ a ∧ a ≤ 90) ∧ (48 ≤ b ∧ b ≤ 90) ∧ (48 ≤ c ∧ c ≤ 90) ∧
      (48 ≤ d ∧ d ≤ 90) ∧ (48 ≤ e ∧ e ≤ 90) := by
  simp only [isDtcCode, isDtcLetter, isDtcDigit, isHexChar, Bool.and_eq_true,
    decide_eq_true_eq] at h
  omega

theorem findCodes_valid : ∀ s : PStr, ∀ w ∈ findCodes s, isDtcCode w = true := by
  intro s
  induction s using findCodes.induct with
  | case1 a b c d e rest hcode ih =>
    intro w hw
    rw [findCodes, if_pos hcode] at hw
    rcases List.mem_cons.mp hw with h | h
    · subst h; exact hcode
    · exact ih w h
  | case2 a b c d e rest hcode ih =>
    intro w hw
    rw [findCodes, if_neg hcode] at hw
    exact ih w hw
  | case3 s h =>
    intro w hw
    match s, h with
    | [], _ => simp [findCodes] at hw
    | [_], _ => simp [findCodes] at hw
    | [_, _], _ => simp [findCodes] at hw
    | [_, _, _], _ => simp [findCodes] at hw
    | [_, _, _, _], _ => simp [findCodes] at hw
    | a :: b :: c :: d :: e :: rest, h => exact (h a b c d e rest rfl).elim

theorem findCodes_space_cons (s : PStr) : findCodes (32 :: s) = findCodes s := by
  match s with
  | b :: c :: d :: e :: rest =>
    rw [findCodes, if_neg]
    simp [isDtcCode, isDtcLetter]
  | [] => rfl
  | [_] => rfl
  | [_, _] => rfl
  | [_, _, _] => rfl

theorem findCodes_code_append {w : PStr} (s : PStr) (h : isDtcCode w = true) :
    findCodes (w ++ s) = w :: findCodes s := by
  obtain ⟨a, b, c, d, e, rfl⟩ := isDtcCode_shape h
  simp only [List.cons_append, List.nil_append]
  rw [findCodes, if_pos h]

theorem findCodes_spaceJoin :
    ∀ codes : List PStr, (∀ w ∈ codes, isDtcCode w = true) →
      findCodes (spaceJoin codes) = codes := by
  intro codes
  induction codes with
  | nil => intro _; rfl
  | cons w rest ih =>
    intro h
    have hw := h w (List.mem_cons_self _ _)
    cases rest with
    | nil =>
      show findCodes (spaceJoin [w]) = [w]
      rw [show spaceJoin [w] = w ++ [] by simp [spaceJoin],
        findCodes_code_append [] hw]
      rfl
    | cons u rest' =>
      show findCodes (w ++ 32 :: spaceJoin (u :: rest')) = w :: u :: rest'
      rw [findCodes_code_append _ hw, findCodes_space_cons,
        ih (fun v hv => h v (List.mem_cons_of_mem _ hv))]

/-- Every space-separated token of a `clean_dtc_codes` output matches the
(hexadecimal) trouble-code pattern. -/
theorem clean_dtc_tokens_valid (x : Cell) :
    ∀ w ∈ pySplit (clean_dtc_codes x), isDtcCode w = true := by
  intro w hw
  match x with
  | none => simp [clean_dtc_codes, pySplit, pySplitAux] at hw
  | some v =>
    unfold clean_dtc_codes at hw
    have hvalid := findCodes_valid (pyUpper (astypeStr (some v)))
    rw [pySplit_spaceJoin _ ?_] at hw
    · exact hvalid w hw
    · intro u hu
      have hc := hvalid u hu
      obtain ⟨a, b, c, d, e, rfl⟩ := isDtcCode_shape hc
      obtain ⟨h1, h2, h3, h4, h5⟩ := isDtcCode_chars hc
      refine ⟨by simp, ?_⟩
      intro ch hch
      simp only [List.mem_cons, List.not_mem_nil, or_false] at hch
      rcases hch with rfl | rfl | rfl | rfl | rfl <;>
        exact isSpaceChar_eq_false_of_ge (by omega)


/-! ## Claims C2-C5 -/

/-- Claim C2 (code bug evaluation): `pd.cut` with the source's bins assigns a
record with mileage 0 to no bucket at all (missing), not to bucket 0; the
whole vehicle extractor therefore emits a missing `mileage_category` cell for
it, and a pipeline run over such a record aborts inside the scaler with the
NaN error instead of completing. Mileage 50,000 lands in bucket 0 (bins are
right-closed). -/
theorem claim_C2 :
    mileage_category 0 = none ∧
    mileage_category 50000 = some 0 ∧
    mileage_category 50001 = some 1 ∧
    extract_vehicle_features ⟨[pstr "mileage"], [[some (.n 0)]]⟩ 2025
      = [(pstr "mileage_category", [none])] ∧
    preprocess_pipeline [⟨[pstr "mileage"], [[some (.n 0)]]⟩] 2025 (pstr "fault_type")
      = .error .nanInFeatures := by
  refine ⟨?_, ?_, ?_, ?_, ?_⟩ <;> with_unfolding_all rfl

/-- Claim C3 (code bug evaluation): a record whose `symptoms` field is missing
comes out of the Cleaning Stage with the literal string `"nan"`, not the empty
string — `astype(str)` runs before `clean_text`, so the `pd.isna` branch that
would return `""` is dead code on this path. -/
theorem claim_C3 :
    clean_data ⟨[pstr "symptoms"], [[none]]⟩
      = ⟨[pstr "symptoms"], [[some (.s (pstr "nan"))]]⟩ ∧
    clean_text none = [] := by
  exact ⟨by decide, rfl⟩

/-- Claim C4 (code bug evaluation): the cascading substring substitutions of
`encode_labels` mangle the free text `"intermittent wiring harness issue"`
into `"intermittent wiring wiring harness wiring harness issue"` (first
`wiring` → `wiring harness`, then each `harness` → `wiring harness`), so the
encoder's class list contains that mangled lowercase string rather than the
canonical category `"Wiring Harness"`. -/
theorem claim_C4 :
    encode_labels
        ⟨[pstr "fault_type"], [[some (.s (pstr "intermittent wiring harness issue"))]]⟩
        (pstr "fault_type")
      = .ok ([0], [pstr "intermittent wiring wiring harness wiring harness issue"]) := by
  decide

/-- Claim C5 (amended): every space-separated token that
`clean_dtc_codes` outputs matches the hexadecimal trouble-code pattern
`[PCBU][0-3][0-9A-F]{3}` (not the claim's broader "three alphanumeric
characters"), and the claim's concrete example holds: `"p0300, garbage,
B1234X"` yields exactly `"P0300 B1234"`. -/
theorem claim_C5 :
    (∀ x : Cell, ∀ w ∈ pySplit (clean_dtc_codes x), isDtcCode w = true) ∧
    clean_dtc_codes (some (.s (pstr "p0300, garbage, B1234X"))) = pstr "P0300 B1234" := by
  exact ⟨clean_dtc_tokens_valid, by decide⟩

/-- Claim C5 counterexample: on input `"p0zzz"` the code drops everything
(`Z` is not a hexadecimal digit), while the claim's pattern — with "three
alphanumeric characters" — matches `P0ZZZ` and would keep it. -/
theorem counterexample_C5 :
    clean_dtc_codes (some (.s (pstr "p0zzz"))) = [] ∧
    claimDtcClean (some (.s (pstr "p0zzz"))) = pstr "P0ZZZ" := by
  exact ⟨by decide, by decide⟩

/-! ## Claim C6: label-encoding error contract -/

theorem numericDtype_eq_false_of_strings {col : List Cell}
    (h : ∀ c ∈ col, ∃ u, c = some (.s u)) : numericDtype col = false := by
  cases col with
  | nil => rfl
  | cons c rest =>
    obtain ⟨u, hu⟩ := h c (List.mem_cons_self _ _)
    subst hu
    simp [numericDtype]

/-- Claim C6 (amended): `encode_labels` fails with the missing-target error
exactly when the target column is absent; and whenever the target column is
present with only (non-missing) string values, it succeeds with an integer
vector and the class list. (As stated, the claim is broader: a present target
column holding numbers or missing values makes `encode_labels` raise a
different error — see the counterexample.) -/
theorem claim_C6 (df : DF) (t : PStr) :
    (encode_labels df t = .error (.missingTargetColumn t) ↔ t ∉ df.cols) ∧
    (t ∈ df.cols → (∀ c ∈ getNamedCol df t, ∃ u, c = some (.s u)) →
      ∃ vec classes, encode_labels df t = .ok (vec, classes)) := by
  constructor
  · constructor
    · intro h
      by_contra hmem
      unfold encode_labels at h
      rw [if_neg (not_not_intro hmem)] at h
      dsimp only at h
      split_ifs at h <;> simp_all
    · intro h
      unfold encode_labels
      rw [if_pos h]
  · intro hmem hall
    unfold encode_labels
    rw [if_neg (not_not_intro hmem)]
    rw [if_neg (by simp [numericDtype_eq_false_of_strings hall])]
    rw [if_neg ?_]
    · exact ⟨_, _, rfl⟩
    · simp only [List.any_eq_true, not_exists, not_and]
      intro c hc
      rw [List.mem_map] at hc
      obtain ⟨c0, hc0, hval⟩ := hc
      obtain ⟨u, hu⟩ := hall c0 hc0
      subst hu
      simp only at hval
      subst hval
      simp

/-- Claim C6 witness: a one-row frame with a string `fault_type` value
encodes successfully (and to the concrete, cascade-mangled class). -/
theorem witness_C6 :
    ((pstr "fault_type") ∈ (⟨[pstr "fault_type"], [[some (.s (pstr "wiring"))]]⟩ : DF).cols) ∧
    (∃ vec classes,
      encode_labels ⟨[pstr "fault_type"], [[some (.s (pstr "wiring"))]]⟩ (pstr "fault_type")
        = .ok (vec, classes)) ∧
    encode_labels ⟨[pstr "fault_type"], [[some (.s (pstr "wiring"))]]⟩ (pstr "fault_type")
      = .ok ([0], [pstr "wiring wiring harness"]) := by
  refine ⟨by decide, ?_, by decide⟩
  refine (claim_C6 ⟨[pstr "fault_type"], [[some (.s (pstr "wiring"))]]⟩ (pstr "fault_type")).2
    (by decide) ?_
  have hcol : getNamedCol ⟨[pstr "fault_type"], [[some (.s (pstr "wiring"))]]⟩
      (pstr "fault_type") = [some (.s (pstr "wiring"))] := by decide
  rw [hcol]
  intro c hc
  rw [List.mem_singleton] at hc
  subst hc
  exact ⟨pstr "wiring", rfl⟩

/-- Claim C6 counterexample: a record set that does contain the target field,
but with a numeric value, makes label encoding fail (with the `.str`-accessor
error, not with success as the claim demands, and not with the
missing-target error). -/
theorem counterexample_C6 :
    (pstr "fault_type") ∈ (⟨[pstr "fault_type"], [[some (.n 1)]]⟩ : DF).cols ∧
    encode_labels ⟨[pstr "fault_type"], [[some (.n 1)]]⟩ (pstr "fault_type")
      = .error .strAccessorOnNumeric := by
  exact ⟨by decide, by with_unfolding_all rfl⟩

/-! ## Claim C8: empty input aborts the run -/

/-- Claim C8: when the Record Loader/Merger discovers no records (no files, or
only empty frames), the pipeline run aborts immediately with the
empty-input error (`ValueError("No data found to process")`, the spec's
`EmptyInputError`) and performs no further stage. -/
theorem claim_C8 (files : List DF) (cy : ℚ) (t : PStr)
    (h : (load_raw_data files).rows = [] ∨ (load_raw_data files).cols = []) :
    preprocess_pipeline files cy t = .error .emptyInput := by
  have hcond : ((load_raw_data files).rows.isEmpty
      || (load_raw_data files).cols.isEmpty) = true := by
    rcases h with h | h <;> simp [h]
  unfold preprocess_pipeline
  rw [if_pos hcond]

/-- Claim C8 witness: the empty input directory (no files at all). -/
theorem witness_C8 :
    (load_raw_data []).rows = [] ∧
    preprocess_pipeline [] (2025 : ℚ) (pstr "fault_type") = .error .emptyInput :=
  ⟨rfl, claim_C8 [] 2025 (pstr "fault_type") (Or.inl rfl)⟩

/-! ## Claim C1: transformation state is refit on every run -/

/-- Claim C10 (amended): on a non-empty input whose cleaned record set lacks
the target column, the pipeline completes successfully *provided* feature
extraction and scaling succeed (the extracted matrix is non-empty and free of
missing entries — see the counterexample for an input violating that), and
then: the returned labels are absent, the metadata's class-name list is null,
the persisted label-encoder state is empty, and no label artifact is written. -/
theorem claim_C10 (files : List DF) (cy : ℚ) (t : PStr)
    (fb : Block) (vs : Option VectorizerState) (st : ScalerState)
    (sc : List (List (ℚ × ℚ)))
    (h1 : ((load_raw_data files).rows.isEmpty
        || (load_raw_data files).cols.isEmpty) = false)
    (h2 : t ∉ (clean_data (load_raw_data files)).cols)
    (h3 : extract_features (clean_data (load_raw_data files)) cy = .ok (fb, vs))
    (h4 : scaler_fit_transform fb = .ok (st, sc)) :
    ∃ out, preprocess_pipeline files cy t = .ok out ∧
      out.labels = none ∧
      out.metadata.class_names = none ∧
      out.label_encoder_classes = none ∧
      out.written_files = ["features.npy", "metadata.json", "scaler.pkl",
        "label_encoders.pkl", "symptom_vectorizer.pkl"] := by
  unfold preprocess_pipeline
  rw [if_neg (by simp [h1])]
  dsimp only
  rw [h3]
  dsimp only
  rw [if_neg h2]
  dsimp only
  rw [h4]
  exact ⟨_, rfl, rfl, rfl, rfl, rfl⟩

/-- Claim C10 counterexample: a non-empty input (one record with only a `year`
column) whose cleaned set lacks `fault_type`; instead of completing with a
null class list, the pipeline aborts — the single-row batch makes
`vehicle_age_normalized` a 0/0 division (NaN), which the scaler rejects. -/
theorem counterexample_C10 :
    (load_raw_data [⟨[pstr "year"], [[some (.n 2020)]]⟩]).rows ≠ [] ∧
    pstr "fault_type" ∉
      (clean_data (load_raw_data [⟨[pstr "year"], [[some (.n 2020)]]⟩])).cols ∧
    preprocess_pipeline [⟨[pstr "year"], [[some (.n 2020)]]⟩] 2025 (pstr "fault_type")
      = .error .nanInFeatures := by
  refine ⟨?_, ?_, ?_⟩ <;> with_unfolding_all first | rfl | decide

/-- Claim C10 witness: a well-behaved target-free input (one battery-voltage
record) runs to completion with absent labels and no label artifact. -/
theorem witness_C10 :
    ∃ out,
      preprocess_pipeline [⟨[pstr "battery_voltage"], [[some (.n 12)]]⟩] 2025
          (pstr "fault_type") = .ok out ∧
      out.labels = none ∧
      out.metadata.class_names = none ∧
      out.label_encoder_classes = none ∧
      out.written_files = ["features.npy", "metadata.json", "scaler.pkl",
        "label_encoders.pkl", "symptom_vectorizer.pkl"] := by
  refine claim_C10 [⟨[pstr "battery_voltage"], [[some (.n 12)]]⟩] 2025 (pstr "fault_type")
    [ (pstr "battery_voltage_normalized", [some 12])
    , (pstr "battery_low", [some 0])
    , (pstr "battery_high", [some 0]) ]
    none
    [(12, 0), (0, 0), (0, 0)]
    [[(0, 0)], [(0, 0)], [(0, 0)]]
    ?_ ?_ ?_ ?_
  · with_unfolding_all rfl
  · with_unfolding_all decide
  · with_unfolding_all rfl
  · with_unfolding_all rfl

/-! ## Claim C7: the fault-pattern matcher -/


theorem insertDesc_perm (x : MatchResult) :
    ∀ l : List MatchResult, List.Perm (insertDesc x l) (x :: l) := by
  intro l
  induction l with
  | nil => rfl
  | cons y l ih =>
    unfold insertDesc
    split
    · exact (ih.cons y).trans (List.Perm.swap x y l)
    · rfl

theorem sortDesc_perm : ∀ l : List MatchResult, List.Perm (sortDesc l) l := by
  intro l
  induction l with
  | nil => rfl
  | cons x l ih => exact (insertDesc_perm x (sortDesc l)).trans (ih.cons x)

theorem insertDesc_pairwise {x : MatchResult} :
    ∀ {l : List MatchResult}, l.Pairwise analyzerOrder →
      (∀ y ∈ l, declIdx x < declIdx y) →
      (insertDesc x l).Pairwise analyzerOrder := by
  intro l
  induction l with
  | nil => intro _ _; exact List.pairwise_singleton _ _
  | cons y l ih =>
    intro hp hidx
    rw [List.pairwise_cons] at hp
    obtain ⟨hy, hl⟩ := hp
    unfold insertDesc
    split
    · rename_i hxy
      rw [List.pairwise_cons]
      constructor
      · intro z hz
        rcases List.mem_cons.mp ((insertDesc_perm x l).mem_iff.mp hz) with h | h
        · subst h; exact Or.inl hxy
        · exact hy z h
      · exact ih hl (fun z hz => hidx z (List.mem_cons_of_mem _ hz))
    · rename_i hxy
      rw [not_lt] at hxy
      rw [List.pairwise_cons]
      constructor
      · intro z hz
        rcases List.mem_cons.mp hz with h | h
        · subst h
          rcases lt_or_eq_of_le hxy with hlt | heq
          · exact Or.inl hlt
          · exact Or.inr ⟨heq.symm, hidx _ (List.mem_cons_self _ _)⟩
        · rcases hy z h with hlt | ⟨heq, _⟩
          · exact Or.inl (lt_of_lt_of_le hlt hxy)
          · rcases lt_or_eq_of_le (heq ▸ hxy) with hlt | heq2
            · exact Or.inl hlt
            · exact Or.inr ⟨heq2.symm, hidx z (List.mem_cons_of_mem _ h)⟩
      · exact List.pairwise_cons.mpr ⟨hy, hl⟩

theorem sortDesc_pairwise :
    ∀ {l : List MatchResult}, l.Pairwise (fun a b => declIdx a < declIdx b) →
      (sortDesc l).Pairwise analyzerOrder := by
  intro l
  induction l with
  | nil => intro _; exact List.Pairwise.nil
  | cons x l ih =>
    intro hp
    rw [List.pairwise_cons] at hp
    obtain ⟨hx, hl⟩ := hp
    exact insertDesc_pairwise (ih hl)
      (fun y hy => hx y ((sortDesc_perm l).mem_iff.mp hy))

theorem matchesFor_pairwise (symptoms : List String) :
    (matchesFor symptoms).Pairwise (fun a b => declIdx a < declIdx b) := by
  have base : fault_patterns.Pairwise
      (fun a b => (fault_patterns.map Prod.fst).indexOf a.1
        < (fault_patterns.map Prod.fst).indexOf b.1) := by decide
  unfold matchesFor
  rw [List.pairwise_map]
  exact List.Pairwise.sublist (List.filter_sublist _) base

/-- Claim C7: for a duplicate-free input set of symptom tags, the analyzer
returns exactly the knowledge-base entries with nonzero score (a permutation
of the in-order nonzero-score entries, each with score = matched count over
the entry's symptom-list size), ordered by strictly descending score with
ties broken by declaration order. (The two properties pin the output list
uniquely.) -/
theorem claim_C7 (symptoms : List String) (_hnd : symptoms.Nodup) :
    List.Perm (analyze_symptoms symptoms) (matchesFor symptoms) ∧
    (analyze_symptoms symptoms).Pairwise analyzerOrder :=
  ⟨sortDesc_perm _, sortDesc_pairwise (matchesFor_pairwise symptoms)⟩

/-- Claim C7 witness: the claim's concrete query. `wire_degradation` scores
2/3 and ranks first; `terminal_crimping_failure` scores 1/3 and is the only
other hit. -/
theorem witness_C7 :
    (["intermittent_connection", "voltage_drop"] : List String).Nodup ∧
    (analyze_symptoms ["intermittent_connection", "voltage_drop"]).Pairwise analyzerOrder ∧
    (analyze_symptoms ["intermittent_connection", "voltage_drop"]).map
        (fun x => (x.1, x.2.1))
      = [("wire_degradation", 2/3), ("terminal_crimping_failure", 1/3)] := by
  refine ⟨by decide, (claim_C7 _ (by decide)).2, ?_⟩
  with_unfolding_all rfl

/-! ## Claim C9: idempotence analysis of the Cleaning Stage

Each normalization is a per-cell fixed point on already-cleaned data; the
stage as a whole fails to be idempotent only because duplicate removal runs
before normalization (see the counterexample). The lemmas below establish the
per-cell fixed points. -/

theorem asciiLower_idem (n : Nat) : asciiLower (asciiLower n) = asciiLower n := by
  unfold asciiLower
  split_ifs <;> omega

theorem asciiUpper_fix {n : Nat} (h : n ≤ 90) : asciiUpper n = n := by
  unfold asciiUpper
  split_ifs <;> omega

theorem subChar_range (n : Nat) :
    (isWordChar (subChar n) || isSpaceChar (subChar n)) = true := by
  unfold subChar
  split_ifs with h
  · exact h
  · decide

theorem subChar_fix {n : Nat} (h : (isWordChar n || isSpaceChar n) = true) :
    subChar n = n := by
  unfold subChar
  rw [if_pos h]

theorem asciiLower_fix_subChar_lower (x : Nat) :
    asciiLower (subChar (asciiLower x)) = subChar (asciiLower x) := by
  unfold subChar isWordChar isSpaceChar asciiLower
  split_ifs <;> simp_all <;> omega

/-- Characters of `' '.join(ws)` come from the words or are the space. -/
theorem spaceJoin_mem :
    ∀ (ws : List PStr), ∀ c ∈ spaceJoin ws, (∃ w ∈ ws, c ∈ w) ∨ c = 32 := by
  intro ws
  induction ws with
  | nil => intro c hc; simp [spaceJoin] at hc
  | cons w ws ih =>
    cases ws with
    | nil =>
      intro c hc
      exact Or.inl ⟨w, List.mem_cons_self _ _, by simpa [spaceJoin] using hc⟩
    | cons u ws' =>
      intro c hc
      have : c ∈ w ++ 32 :: spaceJoin (u :: ws') := hc
      rcases List.mem_append.mp this with h | h
      · exact Or.inl ⟨w, List.mem_cons_self _ _, h⟩
      · rcases List.mem_cons.mp h with h | h
        · exact Or.inr h
        · rcases ih c h with ⟨v, hv, hcv⟩ | h
          · exact Or.inl ⟨v, List.mem_cons_of_mem _ hv, hcv⟩
          · exact Or.inr h

/-- Every character of a `cleanTextStr` output is lowercase-fixed and is a
word character or a space. -/
theorem cleanTextStr_chars (t : PStr) :
    ∀ c ∈ cleanTextStr t,
      asciiLower c = c ∧ (isWordChar c || isSpaceChar c) = true := by
  intro c hc
  unfold cleanTextStr at hc
  rcases spaceJoin_mem _ c hc with ⟨w, hw, hcw⟩ | h
  · have hsound := (pySplit_sound _ w hw).2 c hcw
    have hmem : c ∈ (pyLower t).map subChar := hsound.2
    rw [List.mem_map] at hmem
    obtain ⟨c1, hc1, hc1eq⟩ := hmem
    unfold pyLower at hc1
    rw [List.mem_map] at hc1
    obtain ⟨c0, _, hc0eq⟩ := hc1
    subst hc0eq
    subst hc1eq
    exact ⟨asciiLower_fix_subChar_lower c0, subChar_range _⟩
  · subst h
    exact ⟨by decide, by decide⟩

theorem pyLower_of_fixed {u : PStr} (h : ∀ c ∈ u, asciiLower c = c) :
    pyLower u = u := by
  unfold pyLower
  exact (List.map_congr_left h).trans (List.map_id u)

theorem cleanTextStr_idem (t : PStr) :
    cleanTextStr (cleanTextStr t) = cleanTextStr t := by
  have hchars := cleanTextStr_chars t
  have hlower : pyLower (cleanTextStr t) = cleanTextStr t :=
    pyLower_of_fixed (fun c hc => (hchars c hc).1)
  have hsub : (cleanTextStr t).map subChar = cleanTextStr t := by
    refine (List.map_congr_left ?_).trans (List.map_id _)
    intro c hc
    exact subChar_fix (hchars c hc).2
  have hws : ∀ w ∈ pySplit ((pyLower t).map subChar),
      w ≠ [] ∧ ∀ c ∈ w, isSpaceChar c = false :=
    fun w hw => ⟨(pySplit_sound _ w hw).1,
      fun c hc => ((pySplit_sound _ w hw).2 c hc).1⟩
  show spaceJoin (pySplit ((pyLower (cleanTextStr t)).map subChar)) = cleanTextStr t
  rw [hlower, hsub]
  show spaceJoin (pySplit (spaceJoin (pySplit ((pyLower t).map subChar))))
    = cleanTextStr t
  rw [pySplit_spaceJoin _ hws]
  rfl

theorem cleanTextStr_pyLower (t : PStr) :
    cleanTextStr (pyLower t) = cleanTextStr t := by
  unfold cleanTextStr pyLower
  rw [List.map_map]
  refine congrArg (fun l => spaceJoin (pySplit l)) ?_
  apply List.map_congr_left
  intro a ha
  rw [List.mem_map] at ha
  obtain ⟨c, _, rfl⟩ := ha
  show subChar (asciiLower (asciiLower c)) = subChar (asciiLower c)
  rw [asciiLower_idem]

theorem textCellOp_key (u : PStr) :
    textCellOp (some (Value.s u)) = some (Value.s (cleanTextStr u)) := by
  show some (Value.s (cleanTextStr (pyLower u))) = some (Value.s (cleanTextStr u))
  rw [cleanTextStr_pyLower]

theorem textCellOp_idem (c : Cell) : textCellOp (textCellOp c) = textCellOp c := by
  rw [show textCellOp c = some (Value.s (cleanTextStr (pyLower (astypeStr c)))) from rfl,
    textCellOp_key, cleanTextStr_idem]

theorem dropWhile_idem (p : Nat → Bool) (l : PStr) :
    (l.dropWhile p).dropWhile p = l.dropWhile p := by
  induction l with
  | nil => rfl
  | cons a l ih =>
    by_cases h : p a
    · simp [List.dropWhile_cons, h, ih]
    · simp [List.dropWhile_cons, h]

theorem dropTrailSp_idem (l : PStr) : dropTrailSp (dropTrailSp l) = dropTrailSp l := by
  unfold dropTrailSp
  rw [List.reverse_reverse, dropWhile_idem]

theorem dropWhile_shape (p : Nat → Bool) (l : PStr) :
    l.dropWhile p = [] ∨ ∃ a t, l.dropWhile p = a :: t ∧ p a = false := by
  induction l with
  | nil => exact Or.inl rfl
  | cons a l ih =>
    by_cases h : p a
    · simpa [List.dropWhile_cons, h] using ih
    · exact Or.inr ⟨a, l, by simp [List.dropWhile_cons, h], by simpa using h⟩

theorem dropWhile_dropTrailSp {a : Nat} (l : PStr) (ha : isSpaceChar a = false) :
    (dropTrailSp (a :: l)).dropWhile isSpaceChar = dropTrailSp (a :: l) := by
  unfold dropTrailSp
  rw [List.reverse_cons, List.dropWhile_append]
  by_cases h : (l.reverse.dropWhile isSpaceChar).isEmpty
  · rw [if_pos h]
    simp [List.dropWhile_cons, ha]
  · rw [if_neg h]
    rw [List.reverse_append]
    simp [List.dropWhile_cons, ha]

theorem pyStrip_idem (s : PStr) : pyStrip (pyStrip s) = pyStrip s := by
  unfold pyStrip
  rcases dropWhile_shape isSpaceChar s with h | ⟨a, t, h, ha⟩
  · rw [h]
    rfl
  · rw [h, dropWhile_dropTrailSp t ha, dropTrailSp_idem]

theorem mem_pyStrip {c : Nat} {s : PStr} (h : c ∈ pyStrip s) : c ∈ s := by
  unfold pyStrip dropTrailSp at h
  rw [List.mem_reverse] at h
  have h1 := (List.dropWhile_sublist (l := (s.dropWhile isSpaceChar).reverse)
    (p := isSpaceChar)).mem h
  rw [List.mem_reverse] at h1
  exact (List.dropWhile_sublist (l := s) (p := isSpaceChar)).mem h1

theorem pyStrip_pyLower_fixed (t : PStr) :
    pyLower (pyStrip (pyLower t)) = pyStrip (pyLower t) := by
  apply pyLower_of_fixed
  intro c hc
  have := mem_pyStrip hc
  unfold pyLower at this
  rw [List.mem_map] at this
  obtain ⟨c0, _, rfl⟩ := this
  exact asciiLower_idem c0

theorem mmCellOp_idem (c : Cell) : mmCellOp (mmCellOp c) = mmCellOp c := by
  match c with
  | none => rfl
  | some (.n q) => rfl
  | some (.s t) =>
    show some (Value.s (pyStrip (pyLower (pyStrip (pyLower t)))))
      = some (Value.s (pyStrip (pyLower t)))
    rw [pyStrip_pyLower_fixed, pyStrip_idem]

/-! ### `dtc_codes` cells are fixed points of a second cleaning pass -/

theorem pyUpper_spaceJoin_codes {codes : List PStr}
    (h : ∀ w ∈ codes, isDtcCode w = true) :
    pyUpper (spaceJoin codes) = spaceJoin codes := by
  unfold pyUpper
  refine (List.map_congr_left ?_).trans (List.map_id _)
  intro c hc
  rcases spaceJoin_mem codes c hc with ⟨w, hw, hcw⟩ | rfl
  · have hcode := h w hw
    obtain ⟨a, b, c1, d, e, rfl⟩ := isDtcCode_shape hcode
    obtain ⟨h1, h2, h3, h4, h5⟩ := isDtcCode_chars hcode
    simp only [List.mem_cons, List.not_mem_nil, or_false] at hcw
    rcases hcw with rfl | rfl | rfl | rfl | rfl <;> exact asciiUpper_fix (by omega)
  · exact asciiUpper_fix (by omega)

theorem dtc_out_idem (u : PStr) :
    spaceJoin (findCodes (pyUpper (spaceJoin (findCodes u))))
      = spaceJoin (findCodes u) := by
  have hvalid := findCodes_valid u
  rw [pyUpper_spaceJoin_codes hvalid, findCodes_spaceJoin _ hvalid]

theorem dtcCellOp_idem (c : Cell) : dtcCellOp (dtcCellOp c) = dtcCellOp c := by
  match c with
  | none =>
    show some (Value.s (spaceJoin (findCodes (pyUpper [])))) = some (Value.s [])
    rfl
  | some v =>
    show some (Value.s (spaceJoin (findCodes (pyUpper
        (spaceJoin (findCodes (pyUpper (astypeStr (some v))))))))) = _
    rw [dtc_out_idem]
    rfl

/-! ### Column names are fixed points of a second renaming -/

theorem normColName_idem (s : PStr) : normColName (normColName s) = normColName s := by
  unfold normColName pyLower
  simp only [List.map_map]
  apply List.map_congr_left
  intro c _
  simp only [Function.comp]
  unfold asciiLower
  split_ifs <;> simp_all <;> omega

/-! ### Tracking column cells through the cleaning stages -/

theorem get?_mapIdxFrom (f : Nat → Cell → Cell) :
    ∀ (r : List Cell) (k j : Nat),
      (mapIdxFrom f k r).get? j = (r.get? j).map (f (k + j)) := by
  intro r
  induction r with
  | nil => intro k j; simp [mapIdxFrom]
  | cons c r ih =>
    intro k j
    cases j with
    | zero => simp [mapIdxFrom]
    | succ j =>
      show (mapIdxFrom f (k + 1) r).get? j = (r.get? j).map (f (k + (j + 1)))
      rw [ih (k + 1) j, show k + 1 + j = k + (j + 1) from by omega]

theorem filterMap_option_map {α β γ : Type _} (g : α → Option β) (h : β → γ) :
    ∀ l : List α, l.filterMap (fun a => (g a).map h) = (l.filterMap g).map h := by
  intro l
  induction l with
  | nil => rfl
  | cons a l ih =>
    cases hg : g a with
    | none => simp [List.filterMap_cons, hg, ih]
    | some b => simp [List.filterMap_cons, hg, ih]

theorem colCells_applyColRule (rule : Nat → Cell → Cell) (df : DF) (j : Nat) :
    colCells (applyColRule rule df) j = (colCells df j).map (rule j) := by
  unfold colCells applyColRule
  dsimp only
  rw [List.filterMap_map]
  have : ((fun r : List Cell => r.get? j) ∘ mapIdxFrom rule 0)
      = fun r => (r.get? j).map (rule j) := by
    funext r
    show (mapIdxFrom rule 0 r).get? j = _
    rw [get?_mapIdxFrom]
    simp
  rw [this, filterMap_option_map]

theorem mapIdxFrom_eq_self (f : Nat → Cell → Cell) :
    ∀ (r : List Cell) (k : Nat),
      (∀ j c, r.get? j = some c → f (k + j) c = c) → mapIdxFrom f k r = r := by
  intro r
  induction r with
  | nil => intro k _; rfl
  | cons c r ih =>
    intro k h
    show f k c :: mapIdxFrom f (k + 1) r = c :: r
    rw [show f k c = c from by
      have := h 0 c rfl
      simpa using this]
    rw [ih (k + 1) (fun j c2 hc2 => by
      have := h (j + 1) c2 (by simpa using hc2)
      rw [show k + 1 + j = k + (j + 1) by omega]
      exact this)]

theorem applyColRule_eq_self (rule : Nat → Cell → Cell) (df : DF)
    (h : ∀ j, ∀ c ∈ colCells df j, rule j c = c) : applyColRule rule df = df := by
  unfold applyColRule
  obtain ⟨cols, rows⟩ := df
  simp only [DF.mk.injEq, true_and]
  refine (List.map_congr_left ?_).trans (List.map_id _)
  intro r hr
  apply mapIdxFrom_eq_self
  intro j c hc
  simp only [Nat.zero_add]
  exact h j c (List.mem_filterMap.mpr ⟨r, hr, hc⟩)

theorem mapCol_cols (name : PStr) (f : Cell → Cell) (df : DF) :
    (mapCol name f df).cols = df.cols := rfl

theorem colCells_mapCol_ne {name : PStr} {j : Nat} (f : Cell → Cell) (df : DF)
    (h : df.cols.indexOf name ≠ j) :
    colCells (mapCol name f df) j = colCells df j := by
  unfold mapCol
  rw [colCells_applyColRule]
  refine (List.map_congr_left ?_).trans (List.map_id _)
  intro c _
  exact if_neg (fun hj => h hj.symm)

theorem colCells_mapCol_self (name : PStr) (f : Cell → Cell) (df : DF) :
    colCells (mapCol name f df) (df.cols.indexOf name)
      = (colCells df (df.cols.indexOf name)).map f := by
  unfold mapCol
  rw [colCells_applyColRule]
  apply List.map_congr_left
  intro c _
  exact if_pos rfl

theorem mapCol_eq_self {name : PStr} (f : Cell → Cell) (df : DF)
    (h : ∀ c ∈ colCells df (df.cols.indexOf name), f c = c) :
    mapCol name f df = df := by
  apply applyColRule_eq_self
  intro j c hc
  by_cases hj : j = df.cols.indexOf name
  · subst hj
    rw [if_pos rfl]
    exact h c hc
  · exact if_neg hj

theorem getD_indexOf {a : PStr} :
    ∀ {l : List PStr}, a ∈ l → l.getD (l.indexOf a) [] = a := by
  intro l h
  induction l with
  | nil => simp at h
  | cons b l ih =>
    show (b :: l).getD (List.findIdx (· == a) (b :: l)) [] = a
    rw [List.findIdx_cons]
    by_cases hba : (b == a) = true
    · simp only [hba, cond_true, List.getD]
      exact (eq_of_beq hba).symm ▸ rfl
    · rw [Bool.not_eq_true] at hba
      simp only [hba, cond_false]
      have h2 : a ∈ l := by
        rcases List.mem_cons.mp h with rfl | h2
        · rw [beq_self_eq_true] at hba
          exact absurd hba (by simp)
        · exact h2
      simpa using ih h2

theorem indexOf_ne_of_ne {l : List PStr} {a b : PStr}
    (ha : a ∈ l) (hb : b ∈ l) (hab : a ≠ b) : l.indexOf a ≠ l.indexOf b := by
  intro h
  apply hab
  rw [← getD_indexOf ha, h, getD_indexOf hb]


theorem stageFold_cols (names : List PStr) (op : Cell → Cell) :
    ∀ df : DF, (stageFold names op df).cols = df.cols := by
  induction names with
  | nil => intro df; rfl
  | cons n names ih =>
    intro df
    show (stageFold names op (if n ∈ df.cols then mapCol n op df else df)).cols = _
    rw [ih]
    split <;> rfl

theorem stageFold_cells_ne (names : List PStr) (op : Cell → Cell) :
    ∀ (df : DF) (j : Nat),
      (∀ n ∈ names, n ∈ df.cols → df.cols.indexOf n ≠ j) →
      colCells (stageFold names op df) j = colCells df j := by
  induction names with
  | nil => intro df j _; rfl
  | cons n names ih =>
    intro df j h
    show colCells (stageFold names op (if n ∈ df.cols then mapCol n op df else df)) j = _
    by_cases hn : n ∈ df.cols
    · rw [if_pos hn]
      rw [ih (mapCol n op df) j (fun m hm hmc =>
        h m (List.mem_cons_of_mem _ hm) hmc)]
      exact colCells_mapCol_ne op df (h n (List.mem_cons_self _ _) hn)
    · rw [if_neg hn]
      exact ih df j (fun m hm hmc => h m (List.mem_cons_of_mem _ hm) hmc)

theorem stageFold_cells_hit (names : List PStr) (op : Cell → Cell) :
    ∀ (df : DF) (n : PStr), names.Nodup → n ∈ names → n ∈ df.cols →
      colCells (stageFold names op df) (df.cols.indexOf n)
        = (colCells df (df.cols.indexOf n)).map op := by
  induction names with
  | nil => intro df n _ hn _; simp at hn
  | cons m names ih =>
    intro df n hnd hn hpres
    have hndm := List.nodup_cons.mp hnd
    show colCells (stageFold names op (if m ∈ df.cols then mapCol m op df else df))
      (df.cols.indexOf n) = _
    rcases List.mem_cons.mp hn with rfl | hn2
    · rw [if_pos hpres]
      rw [stageFold_cells_ne names op (mapCol n op df) (df.cols.indexOf n) ?_]
      · exact colCells_mapCol_self n op df
      · intro v hv hvc
        have hvn : v ≠ n := fun h => hndm.1 (h ▸ hv)
        exact indexOf_ne_of_ne hvc hpres hvn
    · have hmn : m ≠ n := fun h => hndm.1 (h ▸ hn2)
      by_cases hm : m ∈ df.cols
      · rw [if_pos hm]
        have hcells : colCells (mapCol m op df) (df.cols.indexOf n) = colCells df _ :=
          colCells_mapCol_ne op df (indexOf_ne_of_ne hm hpres hmn)
        exact (ih (mapCol m op df) n hndm.2 hn2 hpres).trans
          (congrArg (List.map op) hcells)
      · rw [if_neg hm]
        exact ih df n hndm.2 hn2 hpres

theorem stageFold_eq_self (names : List PStr) (op : Cell → Cell) :
    ∀ df : DF,
      (∀ n ∈ names, n ∈ df.cols →
        ∀ c ∈ colCells df (df.cols.indexOf n), op c = c) →
      stageFold names op df = df := by
  induction names with
  | nil => intro df _; rfl
  | cons m names ih =>
    intro df h
    show stageFold names op (if m ∈ df.cols then mapCol m op df else df) = df
    by_cases hm : m ∈ df.cols
    · rw [if_pos hm, mapCol_eq_self op df (h m (List.mem_cons_self _ _) hm)]
      exact ih df (fun n hn => h n (List.mem_cons_of_mem _ hn))
    · rw [if_neg hm]
      exact ih df (fun n hn => h n (List.mem_cons_of_mem _ hn))

theorem dedupAux_eq_self :
    ∀ (l : List (List Cell)) (seen : List (List Cell)),
      l.Nodup → (∀ r ∈ l, r ∉ seen) → dedupAux seen l = l := by
  intro l
  induction l with
  | nil => intro seen _ _; rfl
  | cons r l ih =>
    intro seen hnd hs
    have hndr := List.nodup_cons.mp hnd
    show (if r ∈ seen then dedupAux seen l else r :: dedupAux (r :: seen) l) = r :: l
    rw [if_neg (hs r (List.mem_cons_self _ _))]
    rw [ih (r :: seen) hndr.2 (fun x hx => by
      intro hmem
      rcases List.mem_cons.mp hmem with h | h
      · exact hndr.1 (h ▸ hx)
      · exact hs x (List.mem_cons_of_mem _ hx) h)]

theorem dedup_eq_self {l : List (List Cell)} (h : l.Nodup) : dedup l = l :=
  dedupAux_eq_self l [] h (by simp)

/-! ### Imputation is idempotent -/

theorem numericDtype_cells {col : List Cell} (h : numericDtype col = true) :
    col ≠ [] ∧ ∀ c ∈ col, c = none ∨ ∃ q, c = some (Value.n q) := by
  unfold numericDtype at h
  rw [Bool.and_eq_true] at h
  obtain ⟨h1, h2⟩ := h
  refine ⟨by simpa [List.isEmpty_iff] using h1, ?_⟩
  intro c hc
  have := List.all_eq_true.mp h2 c hc
  match c, this with
  | none, _ => exact Or.inl rfl
  | some (.n q), _ => exact Or.inr ⟨q, rfl⟩

theorem numericDtype_of_all_none {col : List Cell} (hne : col ≠ [])
    (h : ∀ c ∈ col, c = none) : numericDtype col = true := by
  unfold numericDtype
  rw [Bool.and_eq_true]
  constructor
  · simpa [List.isEmpty_iff] using hne
  · rw [List.all_eq_true]
    intro c hc
    rw [h c hc]

theorem presentNums_eq_nil {col : List Cell} (h : ∀ c ∈ col, c = none) :
    presentNums col = [] := by
  unfold presentNums
  rw [List.filterMap_eq_nil_iff]
  intro c hc
  rw [h c hc]

theorem medianQ_eq_none_iff {xs : List ℚ} : medianQ xs = none ↔ xs = [] := by
  unfold medianQ
  dsimp only
  split_ifs with h1 h2 <;> simp_all [List.length_eq_zero]

theorem missingRule_none {df : DF} {j : Nat} {c0 : Cell}
    (h : missingRule df j c0 = none) :
    c0 = none ∧ numericDtype (colCells df j) = true ∧
      medianQ (presentNums (colCells df j)) = none := by
  unfold missingRule at h
  dsimp only at h
  split_ifs at h with hn h2
  · cases c0 with
    | none =>
      cases hme : medianQ (presentNums (colCells df j)) with
      | none => exact ⟨rfl, hn, rfl⟩
      | some m => rw [hme] at h; simp at h
    | some v => simp at h
  · cases c0 <;> simp at h
  · cases c0 <;> simp at h

theorem missingRule_none_eval {df : DF} {j : Nat}
    (hnum : numericDtype (colCells df j) = true)
    (hmed : medianQ (presentNums (colCells df j)) = none) :
    missingRule df j none = none := by
  unfold missingRule
  dsimp only
  rw [if_pos hnum, hmed]

theorem rule_all_none {df : DF} {j : Nat}
    (hnum : numericDtype (colCells df j) = true)
    (hmed : medianQ (presentNums (colCells df j)) = none) :
    ∀ c ∈ (colCells df j).map (missingRule df j), c = none := by
  have hall := (numericDtype_cells hnum).2
  intro c hc
  rw [List.mem_map] at hc
  obtain ⟨c1, hc1, rfl⟩ := hc
  have hc1none : c1 = none := by
    rcases hall c1 hc1 with h | ⟨q, hq⟩
    · exact h
    · exfalso
      have hqmem : q ∈ presentNums (colCells df j) := by
        apply List.mem_filterMap.mpr
        exact ⟨c1, hc1, by rw [hq]⟩
      rw [medianQ_eq_none_iff] at hmed
      rw [hmed] at hqmem
      simp at hqmem
  rw [hc1none]
  exact missingRule_none_eval hnum hmed

theorem colCells_handle_missing (df : DF) (j : Nat) :
    colCells (handle_missing_values df) j
      = (colCells df j).map (missingRule df j) :=
  colCells_applyColRule _ _ _

theorem handle_missing_idem (df : DF) :
    handle_missing_values (handle_missing_values df) = handle_missing_values df := by
  apply applyColRule_eq_self
  intro j c hc
  rw [colCells_handle_missing] at hc
  rw [List.mem_map] at hc
  obtain ⟨c0, hc0, rfl⟩ := hc
  cases hr : missingRule df j c0 with
  | some v =>
    unfold missingRule
    dsimp only
    split_ifs <;> rfl
  | none =>
    obtain ⟨hc0none, hdfnum, hmed⟩ := missingRule_none hr
    have hcolDnone : ∀ c ∈ colCells (handle_missing_values df) j, c = none := by
      rw [colCells_handle_missing]
      exact rule_all_none hdfnum hmed
    have hDnum : numericDtype (colCells (handle_missing_values df) j) = true := by
      apply numericDtype_of_all_none
      · rw [colCells_handle_missing]
        have hne := (numericDtype_cells hdfnum).1
        simpa using hne
      · exact hcolDnone
    have hmedD : medianQ (presentNums (colCells (handle_missing_values df) j))
        = none :=
      medianQ_eq_none_iff.mpr (presentNums_eq_nil hcolDnone)
    exact missingRule_none_eval hDnum hmedD

/-! ### Forward invariants: cells of a cleaned frame are per-cell fixed points -/

theorem numericDtype_false_of_mem_str {col : List Cell} {u : PStr}
    (h : some (Value.s u) ∈ col) : numericDtype col = false := by
  by_contra hn
  rw [Bool.not_eq_false] at hn
  rcases (numericDtype_cells hn).2 _ h with h2 | ⟨q, h2⟩ <;> simp at h2

theorem presentNums_map_mm (l : List Cell) :
    presentNums (l.map mmCellOp) = [] := by
  unfold presentNums
  rw [List.filterMap_eq_nil_iff]
  intro c hc
  rw [List.mem_map] at hc
  obtain ⟨c0, _, rfl⟩ := hc
  match c0 with
  | none => rfl
  | some (.n q) => rfl
  | some (.s t) => rfl

theorem mmCellOp_shape (c0 : Cell) :
    mmCellOp c0 = none ∨ ∃ t, mmCellOp c0 = some (Value.s t) := by
  match c0 with
  | none => exact Or.inl rfl
  | some (.n q) => exact Or.inl rfl
  | some (.s t) => exact Or.inr ⟨_, rfl⟩

theorem handle_missing_cols (d : DF) : (handle_missing_values d).cols = d.cols := rfl

theorem cleanX_cols (df : DF) : (cleanX df).cols = (cleanA df).cols := by
  have h1 : (cleanX df).cols = (cleanM df).cols :=
    stageFold_cols [pstr "dtc_codes"] dtcCellOp (cleanM df)
  have h2 : (cleanM df).cols = (cleanT df).cols :=
    stageFold_cols [pstr "make", pstr "model"] mmCellOp (cleanT df)
  have h3 : (cleanT df).cols = (cleanA df).cols :=
    stageFold_cols text_columns textCellOp (cleanA df)
  exact (h1.trans h2).trans h3

theorem clean_data_cols_A (df : DF) : (clean_data df).cols = (cleanA df).cols := by
  have h0 : (clean_data df).cols = (cleanX df).cols := handle_missing_cols (cleanX df)
  exact h0.trans (cleanX_cols df)

theorem clean_data_cols (df : DF) :
    (clean_data df).cols = df.cols.map normColName :=
  clean_data_cols_A df

/-- Distinctness of the specially-treated column names. -/
theorem special_names_distinct :
    (∀ n ∈ text_columns, n ≠ pstr "make" ∧ n ≠ pstr "model" ∧ n ≠ pstr "dtc_codes") ∧
    (pstr "make" ≠ pstr "dtc_codes" ∧ pstr "model" ≠ pstr "dtc_codes") ∧
    text_columns.Nodup ∧ ([pstr "make", pstr "model"] : List PStr).Nodup := by
  decide

set_option maxHeartbeats 4000000 in
/-- Cells of the cleaned frame in a text column are `textCellOp`-fixed. -/
theorem text_inv (df : DF) (n : PStr) (hn : n ∈ text_columns)
    (hpres : n ∈ (clean_data df).cols) :
    ∀ c ∈ colCells (clean_data df) ((clean_data df).cols.indexOf n),
      textCellOp c = c := by
  intro c hc
  rw [clean_data_cols_A] at hpres hc
  have h1 : colCells (clean_data df) ((cleanA df).cols.indexOf n)
      = (colCells (cleanX df) ((cleanA df).cols.indexOf n)).map
          (missingRule (cleanX df) ((cleanA df).cols.indexOf n)) :=
    colCells_handle_missing (cleanX df) _
  rw [h1] at hc
  have h2 : colCells (cleanX df) ((cleanA df).cols.indexOf n)
      = colCells (cleanM df) ((cleanA df).cols.indexOf n) := by
    refine stageFold_cells_ne [pstr "dtc_codes"] dtcCellOp (cleanM df)
      ((cleanA df).cols.indexOf n) ?_
    intro m hm hmc
    rw [List.mem_singleton] at hm
    subst hm
    have hMA : (cleanM df).cols = (cleanA df).cols :=
      (stageFold_cols _ _ _).trans (stageFold_cols _ _ _)
    rw [hMA] at hmc ⊢
    exact indexOf_ne_of_ne hmc hpres
      (fun h => ((special_names_distinct.1 n hn).2.2 h.symm))
  have h3 : colCells (cleanM df) ((cleanA df).cols.indexOf n)
      = colCells (cleanT df) ((cleanA df).cols.indexOf n) := by
    refine stageFold_cells_ne [pstr "make", pstr "model"] mmCellOp (cleanT df)
      ((cleanA df).cols.indexOf n) ?_
    intro m hm hmc
    have hTA : (cleanT df).cols = (cleanA df).cols := stageFold_cols _ _ _
    rw [hTA] at hmc ⊢
    have hd := special_names_distinct.1 n hn
    simp only [List.mem_cons, List.not_mem_nil, or_false] at hm
    rcases hm with rfl | rfl
    · exact indexOf_ne_of_ne hmc hpres (fun h => hd.1 h.symm)
    · exact indexOf_ne_of_ne hmc hpres (fun h => hd.2.1 h.symm)
  have h4 : colCells (cleanT df) ((cleanA df).cols.indexOf n)
      = (colCells (cleanA df) ((cleanA df).cols.indexOf n)).map textCellOp :=
    stageFold_cells_hit text_columns textCellOp (cleanA df) n
      special_names_distinct.2.2.1 hn hpres
  have hXcells := (h2.trans h3).trans h4
  rw [hXcells, List.map_map] at hc
  rw [List.mem_map] at hc
  obtain ⟨c0, _, rfl⟩ := hc
  have hnum : numericDtype
      (colCells (cleanX df) ((cleanA df).cols.indexOf n)) = false := by
    apply numericDtype_eq_false_of_strings
    rw [hXcells]
    intro cc hcc
    rw [List.mem_map] at hcc
    obtain ⟨c1, _, rfl⟩ := hcc
    exact ⟨_, rfl⟩
  have hrule : missingRule (cleanX df) ((cleanA df).cols.indexOf n)
      (textCellOp c0) = textCellOp c0 := by
    unfold missingRule
    dsimp only
    rw [if_neg (by simp [hnum])]
    rfl
  show textCellOp (missingRule (cleanX df) ((cleanA df).cols.indexOf n)
      (textCellOp c0))
    = missingRule (cleanX df) ((cleanA df).cols.indexOf n) (textCellOp c0)
  rw [hrule, textCellOp_idem]

theorem missingRule_some (df : DF) (j : Nat) (v : Value) :
    missingRule df j (some v) = some v := by
  unfold missingRule
  dsimp only
  split_ifs <;> rfl

set_option maxHeartbeats 4000000 in
/-- Cells of the cleaned frame in the `make`/`model` columns are
`mmCellOp`-fixed. -/
theorem mm_inv (df : DF) (n : PStr) (hn : n ∈ [pstr "make", pstr "model"])
    (hpres : n ∈ (clean_data df).cols) :
    ∀ c ∈ colCells (clean_data df) ((clean_data df).cols.indexOf n),
      mmCellOp c = c := by
  intro c hc
  rw [clean_data_cols_A] at hpres hc
  have h1 : colCells (clean_data df) ((cleanA df).cols.indexOf n)
      = (colCells (cleanX df) ((cleanA df).cols.indexOf n)).map
          (missingRule (cleanX df) ((cleanA df).cols.indexOf n)) :=
    colCells_handle_missing (cleanX df) _
  rw [h1] at hc
  have hd := special_names_distinct.2.1
  simp only [List.mem_cons, List.not_mem_nil, or_false] at hn
  have h2 : colCells (cleanX df) ((cleanA df).cols.indexOf n)
      = colCells (cleanM df) ((cleanA df).cols.indexOf n) := by
    refine stageFold_cells_ne [pstr "dtc_codes"] dtcCellOp (cleanM df)
      ((cleanA df).cols.indexOf n) ?_
    intro m hm hmc
    rw [List.mem_singleton] at hm
    subst hm
    have hMA : (cleanM df).cols = (cleanA df).cols :=
      (stageFold_cols _ _ _).trans (stageFold_cols _ _ _)
    rw [hMA] at hmc ⊢
    refine indexOf_ne_of_ne hmc hpres ?_
    rcases hn with rfl | rfl
    · exact fun h => hd.1 h.symm
    · exact fun h => hd.2 h.symm
  have hTA : (cleanT df).cols = (cleanA df).cols := stageFold_cols _ _ _
  have h4 : colCells (cleanM df) ((cleanA df).cols.indexOf n)
      = (colCells (cleanT df) ((cleanA df).cols.indexOf n)).map mmCellOp := by
    have hmem : n ∈ [pstr "make", pstr "model"] := by
      rcases hn with rfl | rfl
      · exact List.mem_cons_self _ _
      · exact List.mem_cons_of_mem _ (List.mem_cons_self _ _)
    have hh := stageFold_cells_hit [pstr "make", pstr "model"] mmCellOp (cleanT df)
      n special_names_distinct.2.2.2 hmem (by rw [hTA]; exact hpres)
    rw [hTA] at hh
    exact hh
  have hXcells := h2.trans h4
  rw [hXcells, List.map_map] at hc
  rw [List.mem_map] at hc
  obtain ⟨c0, hc0, rfl⟩ := hc
  show mmCellOp (missingRule (cleanX df) ((cleanA df).cols.indexOf n)
      (mmCellOp c0))
    = missingRule (cleanX df) ((cleanA df).cols.indexOf n) (mmCellOp c0)
  rcases mmCellOp_shape c0 with hsh | ⟨t, hsh⟩
  · rw [hsh]
    have hmed : medianQ (presentNums
        (colCells (cleanX df) ((cleanA df).cols.indexOf n))) = none := by
      rw [medianQ_eq_none_iff, hXcells, presentNums_map_mm]
    by_cases hnum : numericDtype
        (colCells (cleanX df) ((cleanA df).cols.indexOf n)) = true
    · rw [missingRule_none_eval hnum hmed]
      rfl
    · rw [Bool.not_eq_true] at hnum
      have hcond : (cleanX df).cols.getD ((cleanA df).cols.indexOf n) []
            = pstr "make" ∨
          (cleanX df).cols.getD ((cleanA df).cols.indexOf n) [] = pstr "model" := by
        have hget : (cleanX df).cols.getD ((cleanA df).cols.indexOf n) [] = n := by
          rw [cleanX_cols]
          exact getD_indexOf hpres
        rw [hget]
        exact hn
      have hrule : missingRule (cleanX df) ((cleanA df).cols.indexOf n) none
          = some (.s (pstr "unknown")) := by
        unfold missingRule
        dsimp only
        rw [if_neg (by simp [hnum])]
        rw [if_pos hcond]
      rw [hrule]
      decide
  · rw [hsh, missingRule_some, ← hsh, mmCellOp_idem]

set_option maxHeartbeats 4000000 in
/-- Cells of the cleaned frame in the `dtc_codes` column are
`dtcCellOp`-fixed. -/
theorem dtc_inv (df : DF) (n : PStr) (hn : n ∈ [pstr "dtc_codes"])
    (hpres : n ∈ (clean_data df).cols) :
    ∀ c ∈ colCells (clean_data df) ((clean_data df).cols.indexOf n),
      dtcCellOp c = c := by
  intro c hc
  rw [clean_data_cols_A] at hpres hc
  have h1 : colCells (clean_data df) ((cleanA df).cols.indexOf n)
      = (colCells (cleanX df) ((cleanA df).cols.indexOf n)).map
          (missingRule (cleanX df) ((cleanA df).cols.indexOf n)) :=
    colCells_handle_missing (cleanX df) _
  rw [h1] at hc
  have hMA : (cleanM df).cols = (cleanA df).cols :=
    (stageFold_cols _ _ _).trans (stageFold_cols _ _ _)
  have h4 : colCells (cleanX df) ((cleanA df).cols.indexOf n)
      = (colCells (cleanM df) ((cleanA df).cols.indexOf n)).map dtcCellOp := by
    have hh := stageFold_cells_hit [pstr "dtc_codes"] dtcCellOp (cleanM df)
      n (List.nodup_singleton _) hn
      (by rw [hMA]; exact hpres)
    rw [hMA] at hh
    exact hh
  rw [h4, List.map_map] at hc
  rw [List.mem_map] at hc
  obtain ⟨c0, hc0, rfl⟩ := hc
  have hnum : numericDtype
      (colCells (cleanX df) ((cleanA df).cols.indexOf n)) = false := by
    apply numericDtype_false_of_mem_str
    rw [h4]
    refine List.mem_map.mpr ⟨c0, hc0, ?_⟩
    rfl
  have hrule : missingRule (cleanX df) ((cleanA df).cols.indexOf n)
      (dtcCellOp c0) = dtcCellOp c0 := by
    unfold missingRule
    dsimp only
    rw [if_neg (by simp [hnum])]
    rfl
  show dtcCellOp (missingRule (cleanX df) ((cleanA df).cols.indexOf n)
      (dtcCellOp c0))
    = missingRule (cleanX df) ((cleanA df).cols.indexOf n) (dtcCellOp c0)
  rw [hrule, dtcCellOp_idem]

/-- C9. The Cleaning Stage is idempotent on every frame whose cleaned output is
duplicate-free: re-cleaning `clean_data df` reproduces it exactly. (The
hypothesis is needed because the source drops duplicates BEFORE normalizing,
so normalization can reintroduce duplicate rows that a second pass removes;
`counterexample_C9` exhibits such a frame, refuting the claim's unconditional
form.) -/
theorem claim_C9 (df : DF) (hnd : (clean_data df).rows.Nodup) :
    clean_data (clean_data df) = clean_data df := by
  have h1 : dedupStage (clean_data df) = clean_data df := by
    unfold dedupStage
    rw [dedup_eq_self hnd]
  have hcols : (clean_data df).cols.map normColName = (clean_data df).cols := by
    rw [clean_data_cols, List.map_map]
    exact List.map_congr_left (fun a _ => normColName_idem a)
  have h2 : renameStage (clean_data df) = clean_data df := by
    unfold renameStage
    rw [hcols]
  have hA : cleanA (clean_data df) = clean_data df := by
    unfold cleanA
    rw [h1, h2]
  have hT : cleanT (clean_data df) = clean_data df := by
    unfold cleanT
    rw [hA]
    exact stageFold_eq_self text_columns textCellOp (clean_data df)
      (fun n hn hp => text_inv df n hn hp)
  have hM : cleanM (clean_data df) = clean_data df := by
    unfold cleanM
    rw [hT]
    exact stageFold_eq_self [pstr "make", pstr "model"] mmCellOp (clean_data df)
      (fun n hn hp => mm_inv df n hn hp)
  have hX : cleanX (clean_data df) = clean_data df := by
    unfold cleanX
    rw [hM]
    exact stageFold_eq_self [pstr "dtc_codes"] dtcCellOp (clean_data df)
      (fun n hn hp => dtc_inv df n hn hp)
  show handle_missing_values (cleanX (clean_data df)) = clean_data df
  rw [hX]
  exact handle_missing_idem (cleanX df)

/-- Witness for C9: a concrete frame whose cleaned output is duplicate-free,
on which cleaning is indeed idempotent. -/
theorem witness_C9 :
    (clean_data ⟨[pstr "symptoms"],
        [[some (.s (pstr "Dead battery"))]]⟩).rows.Nodup ∧
    clean_data (clean_data ⟨[pstr "symptoms"],
        [[some (.s (pstr "Dead battery"))]]⟩)
      = clean_data ⟨[pstr "symptoms"], [[some (.s (pstr "Dead battery"))]]⟩ :=
  ⟨by decide, claim_C9 _ (by decide)⟩

/-- Counterexample to C9 as stated (unconditional idempotence): the rows
`"Dead battery!"` and `"Dead battery"` are distinct, so `drop_duplicates`
(which runs FIRST, line 49) keeps both; text normalization then maps both to
`"dead battery"`, and the second cleaning pass deduplicates them away, so the
row count differs. -/
theorem counterexample_C9 :
    clean_data (clean_data ⟨[pstr "symptoms"],
        [[some (.s (pstr "Dead battery!"))], [some (.s (pstr "Dead battery"))]]⟩)
      ≠ clean_data ⟨[pstr "symptoms"],
        [[some (.s (pstr "Dead battery!"))], [some (.s (pstr "Dead battery"))]]⟩ := by
  decide

end AutoDiag
